import Mathlib

/-!
Shallow embedding of the quote-request lifecycle engine of `go_plata_task_v2`.

Rates are modelled as exact rationals (`Rat`); Go `map[string]float64` values
become association lists `List (String × Rat)` looked up with `List.lookup`.
Wall-clock times (`time.Time`, `time.Now()`) become explicit `Nat` parameters.
The Postgres-backed store (`internal/database/database.go`) becomes a pure
`Store` value; the partial unique index `idx_pending_quote_requests`
(`ON quote_requests (from_currency, to_currency) WHERE status = 'pending'`)
is modelled as a uniqueness check that gates every write to `quote_requests`,
exactly as Postgres would reject a violating INSERT/UPDATE.
-/

/-- One row of the `quote_requests` table (`internal/models/models.go`). -/
structure QuoteRequest where
  id : String
  From : String
  To : String
  Status : String
  CreatedAt : Nat
  UpdatedAt : Nat
  deriving Repr, DecidableEq

/-- One row of the `quotes` table (`internal/models/models.go`). -/
structure Quote where
  id : String
  From : String
  To : String
  Rate : Rat
  CreatedAt : Nat
  UpdatedAt : Nat
  deriving Repr, DecidableEq

/-- The durable state reachable through `database.DB`. -/
structure Store where
  requests : List QuoteRequest
  quotes : List Quote
  deriving Repr, DecidableEq

/-- Two requests clash when both are `pending` for the same (from, to) pair —
the condition the partial unique index `idx_pending_quote_requests` forbids. -/
def pendClash (a b : QuoteRequest) : Bool :=
  a.Status == "pending" && b.Status == "pending" && a.From == b.From && a.To == b.To

/-- The partial unique index holds of a `quote_requests` table: no two rows are
both `pending` for the same pair (`database.go` createTables). -/
def uniquePendingOK : List QuoteRequest → Bool
  | [] => true
  | a :: l => l.all (fun b => !(pendClash a b)) && uniquePendingOK l

/-- `generateID` (`database.go`): the current UnixNano timestamp as a string. -/
def generateID (now : Nat) : String :=
  toString now

/-- `CalculateExchangeRate` (`internal/utils`): cross rate of a pair from
USD-relative rates.  Checks `from` then `to` membership, then branches on
`from == "USD"`, `to == "USD"`, otherwise `toRate / fromRate`. -/
def CalculateExchangeRate (fromCur toCur : String) (usdRates : List (String × Rat)) :
    Except String Rat :=
  match usdRates.lookup fromCur with
  | none => .error ("currency " ++ fromCur ++ " not found in rates")
  | some fromRate =>
    match usdRates.lookup toCur with
    | none => .error ("currency " ++ toCur ++ " not found in rates")
    | some toRate =>
      .ok (if fromCur = "USD" then toRate
           else if toCur = "USD" then 1 / fromRate
           else toRate / fromRate)

/-- The body the external rate API answers with
(`models.ExternalAPIResponse`): a success flag and USD-relative rates. -/
structure ExternalAPIResponse where
  Success : Bool
  Rates : List (String × Rat)
  deriving Repr, DecidableEq

/-- One observed HTTP exchange of `GetMultipleExchangeRates`: whether transport
failed, the status code, and the parsed body (`none` = unparsable payload). -/
structure FetchOutcome where
  transportError : Bool
  statusCode : Nat
  body : Option ExternalAPIResponse
  deriving Repr, DecidableEq

/-- Go map assignment `m[k] = v` on an association list: replace the entry if
the key is present, append it otherwise. -/
def mapSet (k : String) (v : Rat) (t : List (String × Rat)) : List (String × Rat) :=
  if t.any (fun p => p.1 == k) then
    t.map (fun p => if p.1 == k then (k, v) else p)
  else t ++ [(k, v)]

/-- `GetMultipleExchangeRates` (`internal/external/external.go`) over an
abstracted HTTP exchange: empty input short-circuits to an empty map; any
transport error, non-200 status, unparsable body or `success=false` fails as a
unit; on success USD is forced to 1.0 before the map is returned. -/
def GetMultipleExchangeRates (currencies : List String) (outcome : FetchOutcome) :
    Except String (List (String × Rat)) :=
  if currencies.isEmpty then .ok []
  else if outcome.transportError then .error "failed to make request"
  else if outcome.statusCode ≠ 200 then .error "API returned non-200 status"
  else
    match outcome.body with
    | none => .error "failed to unmarshal response"
    | some apiResp =>
      if !apiResp.Success then .error "API returned success=false"
      else .ok (mapSet "USD" 1 apiResp.Rates)

/-! ## Request Store operations (`internal/database/database.go`) -/

/-- Effect of `UPDATE quote_requests SET status, updated_at WHERE id = $3` on
the table rows. -/
def setStatusRows (id status : String) (now : Nat) (l : List QuoteRequest) :
    List QuoteRequest :=
  l.map (fun r => if r.id == id then { r with Status := status, UpdatedAt := now } else r)

/-- Effect of the dedup-refresh `UPDATE quote_requests SET updated_at WHERE id`
on the table rows. -/
def setUpdatedAtRows (id : String) (now : Nat) (l : List QuoteRequest) :
    List QuoteRequest :=
  l.map (fun r => if r.id == id then { r with UpdatedAt := now } else r)

/-- `DB.UpdateQuoteRequestStatus`: unconditional `UPDATE ... WHERE id`; the
write goes through the partial unique index, which rejects it if it would
leave two `pending` rows for one pair.  A missing id matches zero rows and is
not an error (the code never checks `RowsAffected`). -/
def UpdateQuoteRequestStatus (id status : String) (now : Nat) (s : Store) :
    Except String Store :=
  let l := setStatusRows id status now s.requests
  if uniquePendingOK l then .ok { s with requests := l }
  else .error "failed to update quote request status"

/-- `DB.CreateQuoteRequest`: INSERT of a fresh `pending` row whose id is
`generateID`; Postgres rejects it on a primary-key clash or when the partial
unique index already holds a `pending` row for the pair. -/
def CreateQuoteRequest (fromCur toCur : String) (now : Nat) (s : Store) :
    Except String (QuoteRequest × Store) :=
  let req : QuoteRequest :=
    { id := generateID now, From := fromCur, To := toCur, Status := "pending",
      CreatedAt := now, UpdatedAt := now }
  if s.requests.any (fun r => r.id == req.id) then
    .error "failed to create quote request"
  else
    let l := s.requests ++ [req]
    if uniquePendingOK l then .ok (req, { s with requests := l })
    else .error "failed to create quote request"

/-- `DB.GetPendingQuoteRequestByPair`: first row with the pair and
`status = 'pending'` (`QueryRow` reads one row), `NotFound` otherwise. -/
def GetPendingQuoteRequestByPair (fromCur toCur : String) (s : Store) :
    Except String QuoteRequest :=
  match s.requests.find? (fun r => r.From == fromCur && r.To == toCur && r.Status == "pending") with
  | some r => .ok r
  | none => .error "pending quote request not found"

/-- `DB.CreateOrGetPendingQuoteRequest`: look the pending row up first; when
found, best-effort refresh its `updated_at` — a failing refresh `Exec`
(modelled by the `refreshFails` flag) is only logged and the existing row is
returned anyway; when absent, fall through to `CreateQuoteRequest`. -/
def CreateOrGetPendingQuoteRequest (fromCur toCur : String) (now : Nat)
    (refreshFails : Bool) (s : Store) : Except String (QuoteRequest × Store) :=
  match GetPendingQuoteRequestByPair fromCur toCur s with
  | .ok existing =>
    if refreshFails then .ok (existing, s)
    else .ok (existing, { s with requests := setUpdatedAtRows existing.id now s.requests })
  | .error _ => CreateQuoteRequest fromCur toCur now s

/-- Effect of `INSERT ... ON CONFLICT (from_currency, to_currency) DO UPDATE
SET rate, updated_at` on the `quotes` rows: replace the pair's row in place if
it exists, append a fresh row otherwise. -/
def upsertQuoteRows (fromCur toCur : String) (rate : Rat) (now : Nat) (qs : List Quote) :
    List Quote :=
  if qs.any (fun q => q.From == fromCur && q.To == toCur) then
    qs.map (fun q =>
      if q.From == fromCur && q.To == toCur then { q with Rate := rate, UpdatedAt := now } else q)
  else
    qs ++ [{ id := generateID now, From := fromCur, To := toCur, Rate := rate,
             CreatedAt := now, UpdatedAt := now }]

/-- `DB.UpsertQuote`: the upsert keyed on (from, to); the statement itself
cannot conflict, so it succeeds. -/
def UpsertQuote (fromCur toCur : String) (rate : Rat) (now : Nat) (s : Store) :
    Except String Store :=
  .ok { s with quotes := upsertQuoteRows fromCur toCur rate now s.quotes }

/-- `DB.GetPendingQuoteRequests`: `SELECT ... WHERE status = 'pending' ORDER BY
created_at ASC`. -/
def GetPendingQuoteRequests (s : Store) : List QuoteRequest :=
  (s.requests.filter (fun r => r.Status == "pending")).mergeSort
    (fun a b => a.CreatedAt ≤ b.CreatedAt)

/-! ## Lifecycle Engine (`internal/worker/worker.go`) -/

/-- A status write inside a cycle: the worker logs a failing
`UpdateQuoteRequestStatus` and carries on with the old state. -/
def tryUpdateStatus (id status : String) (now : Nat) (s : Store) : Store :=
  match UpdateQuoteRequestStatus id status now s with
  | .ok s' => s'
  | .error _ => s

/-- `Worker.markAllRequestsAsFailed`: best-effort `failed` write per request. -/
def markAllRequestsAsFailed (reqs : List QuoteRequest) (now : Nat) (s : Store) : Store :=
  reqs.foldl (fun st r => tryUpdateStatus r.id "failed" now st) s

/-- `Worker.extractUniqueCurrencies`: the deduplicated set of every `From` and
`To` code (Go iterates a map in unspecified order; first-occurrence order is
one admissible order and only the set reaches the Rate Source). -/
def extractUniqueCurrencies (reqs : List QuoteRequest) : List String :=
  reqs.foldl (fun acc r =>
    let acc1 := if acc.contains r.From then acc else acc ++ [r.From]
    if acc1.contains r.To then acc1 else acc1 ++ [r.To]) []

/-- One step of the grouping loop of `processPendingRequests`: append the
request to its pair's group under the string key `From ++ "/" ++ To`, opening
a new group if the key is new. -/
def groupStep (acc : List (String × List QuoteRequest)) (r : QuoteRequest) :
    List (String × List QuoteRequest) :=
  let key := r.From ++ "/" ++ r.To
  if acc.any (fun p => p.1 == key) then
    acc.map (fun p => if p.1 == key then (p.1, p.2 ++ [r]) else p)
  else acc ++ [(key, [r])]

/-- The grouping loop of `processPendingRequests`: partition requests by the
string key `From ++ "/" ++ To`, keeping first-occurrence order (Go iterates
the map in unspecified order; any fixed order realizes one execution). -/
def groupByPair (reqs : List QuoteRequest) : List (String × List QuoteRequest) :=
  reqs.foldl groupStep []

/-- `Worker.processCurrencyPairWithRates`: mark the group `processing`, take
from/to off `requests[0]`, compute the cross rate, and either fail the group
(`UnknownCurrency` or a failing upsert) or upsert the Quote and complete it. -/
def processCurrencyPairWithRates (reqs : List QuoteRequest)
    (usdRates : List (String × Rat)) (now : Nat) (s : Store) : Store :=
  let s1 := reqs.foldl (fun st r => tryUpdateStatus r.id "processing" now st) s
  match reqs with
  | [] => s1
  | r0 :: _ =>
    match CalculateExchangeRate r0.From r0.To usdRates with
    | .error _ => reqs.foldl (fun st r => tryUpdateStatus r.id "failed" now st) s1
    | .ok rate =>
      match UpsertQuote r0.From r0.To rate now s1 with
      | .error _ => reqs.foldl (fun st r => tryUpdateStatus r.id "failed" now st) s1
      | .ok s2 => reqs.foldl (fun st r => tryUpdateStatus r.id "completed" now st) s2

/-- `Worker.processPendingRequests`, one cycle: discover pending requests,
short-circuit when none, fetch every needed rate once (the Rate Source is the
abstract `fetch` collaborator), fail everything on a fetch error, and
otherwise resolve each (from, to) group independently. -/
def processPendingRequests
    (fetch : List String → Except String (List (String × Rat)))
    (now : Nat) (s : Store) : Store :=
  let requests := GetPendingQuoteRequests s
  if requests.isEmpty then s
  else
    match fetch (extractUniqueCurrencies requests) with
    | .error _ => markAllRequestsAsFailed requests now s
    | .ok usdRates =>
      (groupByPair requests).foldl
        (fun st p => processCurrencyPairWithRates p.2 usdRates now st) s

/-! ## Derived notions used to state the properties -/

/-- The ids of a list of request rows. -/
def idsOf (l : List QuoteRequest) : List String :=
  l.map (fun r => r.id)

/-- The quote stored for a pair, if any (`DB.GetQuote`'s row selection). -/
def findQuote (fromCur toCur : String) (qs : List Quote) : Option Quote :=
  qs.find? (fun q => q.From == fromCur && q.To == toCur)

/-- The cumulative effect of a sequence of per-id status writes: one map that
rewrites exactly the rows whose id occurs in `reqs`. -/
def bulkSetStatus (reqs : List QuoteRequest) (status : String) (now : Nat)
    (l : List QuoteRequest) : List QuoteRequest :=
  l.map (fun r =>
    if reqs.any (fun x => x.id == r.id) then { r with Status := status, UpdatedAt := now } else r)

/-- `rowsOutside S l l'` : `l'` arises from `l` by an id-preserving row
rewrite that leaves every row whose id is outside `S` untouched. -/
def rowsOutside (S : List String) (l l' : List QuoteRequest) : Prop :=
  ∃ g, l' = l.map g ∧ (∀ r, (g r).id = r.id) ∧ (∀ r, r.id ∉ S → g r = r)

/-- `statusOfId x status l` : some row of `l` carries id `x`, and every row of
`l` carrying id `x` has status `status`. -/
def statusOfId (x status : String) (l : List QuoteRequest) : Prop :=
  (∃ r ∈ l, r.id = x ∧ r.Status = status) ∧ (∀ r ∈ l, r.id = x → r.Status = status)

/-! ## Rate Arithmetic: C1, C8, C10 -/

/-- C1. For every rate table and every pair of codes `a`, `b` present with
USD-relative rates `ra`, `rb`, `CalculateExchangeRate` returns `rb` when `a`
is USD, `1/ra` when (`a` is not USD and) `b` is USD, and `rb/ra` when neither
is USD — the three branches taken in the source's order. -/
theorem calculateExchangeRate_branches (a b : String) (t : List (String × Rat))
    (ra rb : Rat) (ha : t.lookup a = some ra) (hb : t.lookup b = some rb) :
    (a = "USD" → CalculateExchangeRate a b t = .ok rb) ∧
    (a ≠ "USD" → b = "USD" → CalculateExchangeRate a b t = .ok (1 / ra)) ∧
    (a ≠ "USD" → b ≠ "USD" → CalculateExchangeRate a b t = .ok (rb / ra)) := by
  unfold CalculateExchangeRate
  rw [ha, hb]
  refine ⟨?_, ?_, ?_⟩ <;> intros <;> simp [*]

/-- Witness for C1 at the table of the repository's own test data. -/
theorem calculateExchangeRate_branches_w :
    CalculateExchangeRate "EUR" "MXN" [("USD", 1), ("EUR", 17/20), ("MXN", 37/2)] =
      .ok ((37 : Rat)/2 / (17/20)) := by
  have h := calculateExchangeRate_branches "EUR" "MXN"
    [("USD", 1), ("EUR", 17/20), ("MXN", 37/2)] (17/20) (37/2) (by rfl) (by rfl)
  exact h.2.2 (by decide) (by decide)

/-- C8. For every code `c` present with a positive rate in a rate table
(which, per the data model, carries USD with rate exactly 1),
`CalculateExchangeRate c c` returns exactly 1. -/
theorem calculateExchangeRate_same (c : String) (t : List (String × Rat)) (r : Rat)
    (husd : t.lookup "USD" = some 1) (hc : t.lookup c = some r) (hr : 0 < r) :
    CalculateExchangeRate c c t = .ok 1 := by
  unfold CalculateExchangeRate
  rw [hc]
  by_cases hcu : c = "USD"
  · subst hcu
    rw [husd] at hc
    have : r = 1 := by injection hc with h; exact h.symm
    simp [this]
  · simp [hcu, div_self (ne_of_gt hr)]

/-- Witness for C8 at a non-USD code of the test table. -/
theorem calculateExchangeRate_same_w :
    CalculateExchangeRate "MXN" "MXN" [("USD", 1), ("EUR", 17/20), ("MXN", 37/2)] = .ok 1 :=
  calculateExchangeRate_same "MXN" [("USD", 1), ("EUR", 17/20), ("MXN", 37/2)]
    (37/2) (by rfl) (by rfl) (by norm_num)

/-- C10. Round trip: for both codes present with positive rates, across the
three branch combinations (`a` = USD, `b` = USD, neither), the two opposite
cross rates multiply to exactly 1 in rational arithmetic. -/
theorem calculateExchangeRate_roundTrip (a b : String) (t : List (String × Rat))
    (ra rb : Rat) (ha : t.lookup a = some ra) (hb : t.lookup b = some rb)
    (hra : 0 < ra) (hrb : 0 < rb) (hne : ¬(a = "USD" ∧ b = "USD")) :
    ∃ x y, CalculateExchangeRate a b t = .ok x ∧
      CalculateExchangeRate b a t = .ok y ∧ x * y = 1 := by
  have hra0 : ra ≠ 0 := ne_of_gt hra
  have hrb0 : rb ≠ 0 := ne_of_gt hrb
  unfold CalculateExchangeRate
  rw [ha, hb]
  by_cases hau : a = "USD" <;> by_cases hbu : b = "USD"
  · exact absurd ⟨hau, hbu⟩ hne
  · refine ⟨rb, 1 / rb, by simp [hau], by simp [hau, hbu], ?_⟩
    field_simp
  · refine ⟨1 / ra, ra, by simp [hau, hbu], by simp [hbu], ?_⟩
    field_simp
  · refine ⟨rb / ra, ra / rb, by simp [hau, hbu], by simp [hau, hbu], ?_⟩
    field_simp

/-- Witness for C10 on the cross (non-USD) branch of the test table. -/
theorem calculateExchangeRate_roundTrip_w :
    ∃ x y, CalculateExchangeRate "EUR" "MXN" [("USD", 1), ("EUR", 17/20), ("MXN", 37/2)] = .ok x ∧
      CalculateExchangeRate "MXN" "EUR" [("USD", 1), ("EUR", 17/20), ("MXN", 37/2)] = .ok y ∧
      x * y = 1 :=
  calculateExchangeRate_roundTrip "EUR" "MXN" [("USD", 1), ("EUR", 17/20), ("MXN", 37/2)]
    (17/20) (37/2) (by rfl) (by rfl) (by norm_num) (by norm_num) (by decide)

/-! ## Rate Source normalization: C5 -/

theorem lookup_cons_self (k : String) (v : Rat) (t : List (String × Rat)) :
    List.lookup k ((k, v) :: t) = some v := by
  simp [List.lookup]

theorem lookup_cons_ne (k k' : String) (v' : Rat) (t : List (String × Rat))
    (h : k ≠ k') : List.lookup k ((k', v') :: t) = List.lookup k t := by
  have hb : (k == k') = false := beq_eq_false_iff_ne.mpr h
  simp [List.lookup, hb]

theorem lookup_mapSet (k : String) (v : Rat) (t : List (String × Rat)) :
    (mapSet k v t).lookup k = some v := by
  induction t with
  | nil => simp [mapSet, List.lookup]
  | cons p t ih =>
    obtain ⟨pk, pv⟩ := p
    by_cases hp : pk = k
    · have hany : (((pk, pv) :: t).any (fun q => q.1 == k)) = true := by
        simp [List.any_cons, hp]
      rw [mapSet, if_pos hany, List.map_cons]
      rw [if_pos (show (((pk, pv) : String × Rat).1 == k) = true by simp [hp])]
      exact lookup_cons_self k v _
    · have hkp : k ≠ pk := fun h => hp h.symm
      have hpb : (((pk, pv) : String × Rat).1 == k) = false :=
        beq_eq_false_iff_ne.mpr hp
      cases hat : t.any (fun q => q.1 == k) with
      | true =>
        have hany : (((pk, pv) :: t).any (fun q => q.1 == k)) = true := by
          simp [List.any_cons, hat]
        rw [mapSet, if_pos hany, List.map_cons]
        rw [if_neg (by simp [hpb])]
        rw [lookup_cons_ne k pk pv _ hkp]
        have h2 := ih
        rw [mapSet, if_pos hat] at h2
        exact h2
      | false =>
        have hany : (((pk, pv) :: t).any (fun q => q.1 == k)) = false := by
          simp [List.any_cons, hpb, hat]
        rw [mapSet, if_neg (by simp [hany]), List.cons_append]
        rw [lookup_cons_ne k pk pv _ hkp]
        have h2 := ih
        rw [mapSet, if_neg (by simp [hat])] at h2
        exact h2

/-- C5. Every successful fetch (non-empty currency list, no transport error,
HTTP 200, parsable body, success flag set) returns a rate map in which USD is
exactly 1, even when the upstream body omits USD. -/
theorem getMultipleExchangeRates_usd_one (currencies : List String)
    (outcome : FetchOutcome) (resp : ExternalAPIResponse)
    (hne : currencies ≠ [])
    (htr : outcome.transportError = false)
    (h200 : outcome.statusCode = 200)
    (hbody : outcome.body = some resp)
    (hsucc : resp.Success = true) :
    ∃ rates, GetMultipleExchangeRates currencies outcome = .ok rates ∧
      rates.lookup "USD" = some 1 := by
  refine ⟨mapSet "USD" 1 resp.Rates, ?_, lookup_mapSet "USD" 1 resp.Rates⟩
  have hne' : currencies.isEmpty = false := by
    cases currencies with
    | nil => exact absurd rfl hne
    | cons c cs => rfl
  simp [GetMultipleExchangeRates, hne', htr, h200, hbody, hsucc]

/-- Witness for C5: a body that omits USD still yields USD ↦ 1. -/
theorem getMultipleExchangeRates_usd_one_w :
    ∃ rates, GetMultipleExchangeRates ["EUR", "MXN"]
        { transportError := false, statusCode := 200,
          body := some { Success := true, Rates := [("EUR", 17/20), ("MXN", 37/2)] } } =
      .ok rates ∧ rates.lookup "USD" = some 1 :=
  getMultipleExchangeRates_usd_one ["EUR", "MXN"]
    { transportError := false, statusCode := 200,
      body := some { Success := true, Rates := [("EUR", 17/20), ("MXN", 37/2)] } }
    { Success := true, Rates := [("EUR", 17/20), ("MXN", 37/2)] }
    (by simp) rfl rfl rfl rfl

/-! ## The partial unique index under row rewrites -/

theorem uniquePendingOK_map (g : QuoteRequest → QuoteRequest)
    (hg : ∀ a b, pendClash (g a) (g b) = true → pendClash a b = true)
    (l : List QuoteRequest) (h : uniquePendingOK l = true) :
    uniquePendingOK (l.map g) = true := by
  induction l with
  | nil => rfl
  | cons a l ih =>
    rw [uniquePendingOK, Bool.and_eq_true] at h
    rw [List.map_cons, uniquePendingOK, Bool.and_eq_true]
    refine ⟨?_, ih h.2⟩
    rw [List.all_map]
    rw [List.all_eq_true] at h ⊢
    intro b hb
    have hab := h.1 b hb
    simp only [Function.comp_apply, Bool.not_eq_true'] at hab ⊢
    cases hcl : pendClash (g a) (g b) with
    | false => rfl
    | true => rw [hg a b hcl] at hab; cases hab

theorem setStatusRows_keeps_uniquePendingOK (id status : String) (now : Nat)
    (l : List QuoteRequest) (h : uniquePendingOK l = true)
    (hstat : status ≠ "pending") :
    uniquePendingOK (setStatusRows id status now l) = true := by
  apply uniquePendingOK_map _ _ l h
  intro a b hcl
  simp only [pendClash, Bool.and_eq_true, beq_iff_eq] at hcl ⊢
  by_cases hia : a.id = id
  · by_cases hib : b.id = id <;> simp [hia, hib, hstat] at hcl
  · by_cases hib : b.id = id
    · simp [hia, hib, hstat] at hcl
    · simp [hia, hib] at hcl
      tauto

theorem setUpdatedAtRows_keeps_uniquePendingOK (id : String) (now : Nat)
    (l : List QuoteRequest) (h : uniquePendingOK l = true) :
    uniquePendingOK (setUpdatedAtRows id now l) = true := by
  apply uniquePendingOK_map _ _ l h
  intro a b hcl
  simp only [pendClash, Bool.and_eq_true, beq_iff_eq] at hcl ⊢
  by_cases hia : a.id = id <;> by_cases hib : b.id = id <;>
    simp [hia, hib] at hcl <;> tauto

theorem uniquePendingOK_append_one (l : List QuoteRequest) (req : QuoteRequest)
    (h : uniquePendingOK l = true)
    (hno : ∀ r ∈ l, pendClash r req = false) :
    uniquePendingOK (l ++ [req]) = true := by
  induction l with
  | nil => simp [uniquePendingOK]
  | cons a l ih =>
    rw [uniquePendingOK, Bool.and_eq_true] at h
    rw [List.cons_append, uniquePendingOK, Bool.and_eq_true]
    constructor
    · rw [List.all_eq_true] at h ⊢
      intro b hb
      rcases List.mem_append.mp hb with hbl | hbr
      · exact h.1 b hbl
      · have hbe : b = req := by simpa using hbr
        subst hbe
        simp [hno a (List.mem_cons_self a l)]
    · exact ih h.2 (fun r hr => hno r (List.mem_cons_of_mem a hr))

/-! ## transitionStatus: C6 -/

/-- C6 counterexample. The store holds the single request id "1"; updating the
unknown id "2" matches zero rows of the SQL UPDATE and succeeds silently,
instead of failing with NotFound as the claim states (the code never checks
`RowsAffected`). -/
theorem updateQuoteRequestStatus_unknown_id_succeeds :
    UpdateQuoteRequestStatus "2" "failed" 9
      { requests := [{ id := "1", From := "EUR", To := "MXN", Status := "pending",
                       CreatedAt := 1, UpdatedAt := 1 }], quotes := [] } =
    .ok { requests := [{ id := "1", From := "EUR", To := "MXN", Status := "pending",
                         CreatedAt := 1, UpdatedAt := 1 }], quotes := [] } := by
  rfl

/-- C6 amended. Under the store invariant and for the non-`pending` statuses
the system writes, `UpdateQuoteRequestStatus` always succeeds: an unknown id
is a silent no-op (no NotFound), and a present id has its status overwritten
and its `updatedAt` refreshed. -/
theorem updateQuoteRequestStatus_amended (id status : String) (now : Nat) (s : Store)
    (hwf : uniquePendingOK s.requests = true) (hstat : status ≠ "pending") :
    UpdateQuoteRequestStatus id status now s =
      .ok { s with requests := setStatusRows id status now s.requests } ∧
    ((∀ r ∈ s.requests, r.id ≠ id) → setStatusRows id status now s.requests = s.requests) ∧
    (∀ r ∈ s.requests, r.id = id →
      { r with Status := status, UpdatedAt := now } ∈ setStatusRows id status now s.requests) := by
  refine ⟨?_, ?_, ?_⟩
  · rw [UpdateQuoteRequestStatus]
    rw [if_pos (setStatusRows_keeps_uniquePendingOK id status now s.requests hwf hstat)]
  · intro habs
    rw [setStatusRows]
    have : ∀ r ∈ s.requests,
        (if r.id == id then { r with Status := status, UpdatedAt := now } else r) = r := by
      intro r hr
      rw [if_neg (by simp [habs r hr])]
    rw [List.map_congr_left this]
    exact List.map_id' s.requests
  · intro r hr hrid
    rw [setStatusRows]
    refine List.mem_map.mpr ⟨r, hr, ?_⟩
    rw [if_pos (by simp [hrid])]

/-- Witness for C6's amended theorem: overwriting a present id succeeds and
rewrites the row; no row matches id "9", so that call is a no-op. -/
theorem updateQuoteRequestStatus_amended_w :
    UpdateQuoteRequestStatus "1" "completed" 9
      { requests := [{ id := "1", From := "EUR", To := "MXN", Status := "pending",
                       CreatedAt := 1, UpdatedAt := 1 }], quotes := [] } =
    .ok { requests := [{ id := "1", From := "EUR", To := "MXN", Status := "completed",
                         CreatedAt := 1, UpdatedAt := 9 }], quotes := [] } := by
  have h := updateQuoteRequestStatus_amended "1" "completed" 9
    { requests := [{ id := "1", From := "EUR", To := "MXN", Status := "pending",
                     CreatedAt := 1, UpdatedAt := 1 }], quotes := [] }
    (by decide) (by decide)
  rw [h.1]
  rfl

/-! ## createOrGetPending and the dedup invariant: C2 -/

/-- C2. Under the at-most-one-pending-per-pair invariant:
`CreateOrGetPendingQuoteRequest` returns the existing pending request for the
pair without adding any row when one exists, creates and returns a fresh
pending request when none exists, and always returns a pending request for
the pair; and every store operation (create-or-get, status update, plain
create, quote upsert) preserves the invariant. -/
theorem createOrGetPending_dedup (f t : String) (now : Nat) (rf : Bool) (s : Store)
    (hwf : uniquePendingOK s.requests = true) :
    (∀ e, GetPendingQuoteRequestByPair f t s = .ok e →
      ∃ s', CreateOrGetPendingQuoteRequest f t now rf s = .ok (e, s') ∧
        s'.requests.map (fun r => (r.id, r.From, r.To, r.Status)) =
          s.requests.map (fun r => (r.id, r.From, r.To, r.Status)) ∧
        s'.quotes = s.quotes) ∧
    (∀ e, GetPendingQuoteRequestByPair f t s = .error e →
      (∀ r ∈ s.requests, r.id ≠ generateID now) →
      CreateOrGetPendingQuoteRequest f t now rf s =
        .ok ({ id := generateID now, From := f, To := t, Status := "pending",
               CreatedAt := now, UpdatedAt := now },
             { s with requests := s.requests ++
                 [{ id := generateID now, From := f, To := t, Status := "pending",
                    CreatedAt := now, UpdatedAt := now }] })) ∧
    (∀ r' s', CreateOrGetPendingQuoteRequest f t now rf s = .ok (r', s') →
      uniquePendingOK s'.requests = true ∧
      r'.Status = "pending" ∧ r'.From = f ∧ r'.To = t) ∧
    (∀ id st nw s', UpdateQuoteRequestStatus id st nw s = .ok s' →
      uniquePendingOK s'.requests = true) ∧
    (∀ f2 t2 nw r2 s', CreateQuoteRequest f2 t2 nw s = .ok (r2, s') →
      uniquePendingOK s'.requests = true) ∧
    (∀ f2 t2 rate nw s', UpsertQuote f2 t2 rate nw s = .ok s' →
      uniquePendingOK s'.requests = true) := by
  have hbyPairPred : ∀ e, GetPendingQuoteRequestByPair f t s = .ok e →
      e ∈ s.requests ∧ e.From = f ∧ e.To = t ∧ e.Status = "pending" := by
    intro e he
    rw [GetPendingQuoteRequestByPair] at he
    cases hfind : s.requests.find?
        (fun r => r.From == f && r.To == t && r.Status == "pending") with
    | none => rw [hfind] at he; cases he
    | some r =>
      rw [hfind] at he
      have her : e = r := by injection he with h; exact h.symm
      subst her
      have hmem := List.mem_of_find?_eq_some hfind
      have hp := List.find?_some hfind
      simp only [Bool.and_eq_true, beq_iff_eq] at hp
      exact ⟨hmem, hp.1.1, hp.1.2, hp.2⟩
  have hcreate : GetPendingQuoteRequestByPair f t s = .error "pending quote request not found" ∨
      ∃ e, GetPendingQuoteRequestByPair f t s = .ok e := by
    rw [GetPendingQuoteRequestByPair]
    cases s.requests.find? (fun r => r.From == f && r.To == t && r.Status == "pending") with
    | none => exact Or.inl rfl
    | some r => exact Or.inr ⟨r, rfl⟩
  refine ⟨?_, ?_, ?_, ?_, ?_, ?_⟩
  · -- existing pending request is returned, no row added
    intro e he
    rw [CreateOrGetPendingQuoteRequest, he]
    cases rf with
    | true => exact ⟨s, rfl, rfl, rfl⟩
    | false =>
      refine ⟨_, rfl, ?_, rfl⟩
      rw [setUpdatedAtRows, List.map_map]
      apply List.map_congr_left
      intro r _
      by_cases hid : r.id = e.id <;> simp [hid]
  · -- no pending request: a fresh pending request is created
    intro e he hfresh
    rw [CreateOrGetPendingQuoteRequest, he]
    have hfind : s.requests.find?
        (fun r => r.From == f && r.To == t && r.Status == "pending") = none := by
      rw [GetPendingQuoteRequestByPair] at he
      cases hfind : s.requests.find?
          (fun r => r.From == f && r.To == t && r.Status == "pending") with
      | none => rfl
      | some r => rw [hfind] at he; cases he
    have hany : (s.requests.any (fun r => r.id == generateID now)) = false := by
      rw [List.any_eq_false]
      intro r hr
      simp [hfresh r hr]
    rw [CreateQuoteRequest]
    simp only [hany, Bool.false_eq_true, if_neg, not_false_iff]
    rw [if_pos]
    apply uniquePendingOK_append_one s.requests _ hwf
    intro r hr
    have hpred := List.find?_eq_none.mp hfind r hr
    rw [Bool.eq_false_iff]
    intro hcl
    apply hpred
    simp only [pendClash, Bool.and_eq_true, beq_iff_eq] at hcl
    simp only [Bool.and_eq_true, beq_iff_eq]
    tauto
  · -- create-or-get preserves the invariant and returns a pending (f, t) request
    intro r' s' h
    rcases hcreate with herr | ⟨e, he⟩
    · have hstep : CreateOrGetPendingQuoteRequest f t now rf s = CreateQuoteRequest f t now s := by
        rw [CreateOrGetPendingQuoteRequest, herr]
      rw [hstep] at h
      simp only [CreateQuoteRequest] at h
      split at h
      · cases h
      · split at h
        · rename_i hgate
          simp only [Except.ok.injEq, Prod.mk.injEq] at h
          obtain ⟨hr', hs'⟩ := h
          subst hr' hs'
          exact ⟨hgate, rfl, rfl, rfl⟩
        · cases h
    · obtain ⟨hmem, hef, het, hes⟩ := hbyPairPred e he
      cases rf with
      | true =>
        have hstep : CreateOrGetPendingQuoteRequest f t now true s = .ok (e, s) := by
          rw [CreateOrGetPendingQuoteRequest, he]
          rfl
        rw [hstep] at h
        simp only [Except.ok.injEq, Prod.mk.injEq] at h
        obtain ⟨hr', hs'⟩ := h
        subst hr' hs'
        exact ⟨hwf, hes, hef, het⟩
      | false =>
        have hstep : CreateOrGetPendingQuoteRequest f t now false s = .ok (e, { s with requests := setUpdatedAtRows e.id now s.requests }) := by
          rw [CreateOrGetPendingQuoteRequest, he]
          rfl
        rw [hstep] at h
        simp only [Except.ok.injEq, Prod.mk.injEq] at h
        obtain ⟨hr', hs'⟩ := h
        subst hr' hs'
        exact ⟨setUpdatedAtRows_keeps_uniquePendingOK e.id now s.requests hwf, hes, hef, het⟩
  · -- status updates preserve the invariant
    intro id st nw s' h
    simp only [UpdateQuoteRequestStatus] at h
    split at h
    · rename_i hgate
      injection h with h1
      rw [← h1]
      exact hgate
    · cases h
  · -- plain creates preserve the invariant
    intro f2 t2 nw r2 s' h
    simp only [CreateQuoteRequest] at h
    split at h
    · cases h
    · split at h
      · rename_i hgate
        simp only [Except.ok.injEq, Prod.mk.injEq] at h
        obtain ⟨hr2, hs'⟩ := h
        subst hs'
        exact hgate
      · cases h
  · -- quote upserts do not touch the requests table
    intro f2 t2 rate nw s' h
    simp only [UpsertQuote, Except.ok.injEq] at h
    rw [← h]
    exact hwf

/-- Witness for C2 at the empty store: no pending (EUR, MXN) request exists,
so a fresh pending one is created and the invariant still holds. -/
theorem createOrGetPending_dedup_w :
    CreateOrGetPendingQuoteRequest "EUR" "MXN" 7 false { requests := [], quotes := [] } =
      .ok ({ id := "7", From := "EUR", To := "MXN", Status := "pending",
             CreatedAt := 7, UpdatedAt := 7 },
           { requests := [{ id := "7", From := "EUR", To := "MXN", Status := "pending",
                            CreatedAt := 7, UpdatedAt := 7 }], quotes := [] }) := by
  have h := createOrGetPending_dedup "EUR" "MXN" 7 false { requests := [], quotes := [] } rfl
  exact h.2.1 "pending quote request not found" rfl (by simp)

/-! ## Frame lemmas: engine writes touch only discovered ids -/

theorem rowsOutside_refl (S : List String) (l : List QuoteRequest) :
    rowsOutside S l l :=
  ⟨fun r => r, (List.map_id' l).symm, fun _ => rfl, fun _ _ => rfl⟩

theorem rowsOutside_comp (S : List String) (l l' l'' : List QuoteRequest)
    (h1 : rowsOutside S l l') (h2 : rowsOutside S l' l'') :
    rowsOutside S l l'' := by
  obtain ⟨g1, he1, hi1, hu1⟩ := h1
  obtain ⟨g2, he2, hi2, hu2⟩ := h2
  refine ⟨fun r => g2 (g1 r), ?_, ?_, ?_⟩
  · rw [he2, he1, List.map_map]
    rfl
  · intro r
    rw [hi2, hi1]
  · intro r hr
    show g2 (g1 r) = r
    rw [hu1 r hr, hu2 r hr]

theorem updateQuoteRequestStatus_ok_shape (id status : String) (now : Nat)
    (s s' : Store) (h : UpdateQuoteRequestStatus id status now s = .ok s') :
    s' = { s with requests := setStatusRows id status now s.requests } ∧
    uniquePendingOK s'.requests = true := by
  simp only [UpdateQuoteRequestStatus] at h
  split at h
  · rename_i hgate
    injection h with h1
    exact ⟨h1.symm, by rw [← h1]; exact hgate⟩
  · cases h

theorem tryUpdateStatus_cases (id status : String) (now : Nat) (s : Store) :
    tryUpdateStatus id status now s = s ∨
    tryUpdateStatus id status now s =
      { s with requests := setStatusRows id status now s.requests } := by
  rw [tryUpdateStatus]
  cases h : UpdateQuoteRequestStatus id status now s with
  | ok s' => exact Or.inr (updateQuoteRequestStatus_ok_shape id status now s s' h).1
  | error e => exact Or.inl rfl

theorem tryUpdateStatus_quotes (id status : String) (now : Nat) (s : Store) :
    (tryUpdateStatus id status now s).quotes = s.quotes := by
  rcases tryUpdateStatus_cases id status now s with h | h <;> rw [h]

theorem setStatusRows_rowsOutside (S : List String) (id status : String) (now : Nat)
    (l : List QuoteRequest) (hid : id ∈ S) :
    rowsOutside S l (setStatusRows id status now l) := by
  refine ⟨fun r => if r.id == id then { r with Status := status, UpdatedAt := now } else r,
    rfl, ?_, ?_⟩
  · intro r
    by_cases h : r.id = id <;> simp [h]
  · intro r hr
    have : r.id ≠ id := fun he => hr (he ▸ hid)
    simp [this]

theorem tryUpdateStatus_rowsOutside (S : List String) (id status : String) (now : Nat)
    (s : Store) (hid : id ∈ S) :
    rowsOutside S s.requests (tryUpdateStatus id status now s).requests := by
  rcases tryUpdateStatus_cases id status now s with h | h <;> rw [h]
  · exact rowsOutside_refl S s.requests
  · exact setStatusRows_rowsOutside S id status now s.requests hid

theorem foldTryUpdate_rowsOutside (S : List String) (status : String) (now : Nat)
    (reqs : List QuoteRequest) :
    ∀ s : Store, (∀ r ∈ reqs, r.id ∈ S) →
    rowsOutside S s.requests
        ((reqs.foldl (fun st r => tryUpdateStatus r.id status now st) s).requests) ∧
    (reqs.foldl (fun st r => tryUpdateStatus r.id status now st) s).quotes = s.quotes := by
  induction reqs with
  | nil => exact fun s _ => ⟨rowsOutside_refl S s.requests, rfl⟩
  | cons r reqs ih =>
    intro s hids
    rw [List.foldl_cons]
    obtain ⟨h1, h2⟩ := ih (tryUpdateStatus r.id status now s)
      (fun q hq => hids q (List.mem_cons_of_mem r hq))
    refine ⟨rowsOutside_comp S _ _ _
      (tryUpdateStatus_rowsOutside S r.id status now s (hids r (List.mem_cons_self r reqs))) h1, ?_⟩
    rw [h2, tryUpdateStatus_quotes]

theorem processGroup_rowsOutside (S : List String) (reqs : List QuoteRequest)
    (rates : List (String × Rat)) (now : Nat) (s : Store)
    (hids : ∀ r ∈ reqs, r.id ∈ S) :
    rowsOutside S s.requests ((processCurrencyPairWithRates reqs rates now s).requests) := by
  cases reqs with
  | nil => exact rowsOutside_refl S s.requests
  | cons r0 rest =>
    simp only [processCurrencyPairWithRates]
    have hfold1 := foldTryUpdate_rowsOutside S "processing" now (r0 :: rest) s hids
    cases CalculateExchangeRate r0.From r0.To rates with
    | error e =>
      exact rowsOutside_comp S _ _ _ hfold1.1
        (foldTryUpdate_rowsOutside S "failed" now (r0 :: rest) _ hids).1
    | ok rate =>
      simp only [UpsertQuote]
      exact rowsOutside_comp S _ _ _ hfold1.1
        (foldTryUpdate_rowsOutside S "completed" now (r0 :: rest) _ hids).1

theorem groupByPair_mem_aux (P : QuoteRequest → Prop) :
    ∀ (l : List QuoteRequest) (acc : List (String × List QuoteRequest)),
      (∀ p ∈ acc, ∀ r ∈ p.2, P r) → (∀ r ∈ l, P r) →
      ∀ p ∈ l.foldl groupStep acc, ∀ r ∈ p.2, P r := by
  intro l
  induction l with
  | nil => exact fun acc hacc _ p hp r hr => hacc p hp r hr
  | cons a l ih =>
    intro acc hacc hl
    rw [List.foldl_cons]
    apply ih
    · intro p hp r hr
      simp only [groupStep] at hp
      split at hp
      · obtain ⟨p0, hp0, hpe⟩ := List.mem_map.mp hp
        subst hpe
        by_cases hk : (p0.1 == a.From ++ "/" ++ a.To) = true
        · rw [if_pos hk] at hr
          rcases List.mem_append.mp hr with h | h
          · exact hacc p0 hp0 r h
          · have hra : r = a := by simpa using h
            subst hra
            exact hl r (List.mem_cons_self r l)
        · rw [if_neg hk] at hr
          exact hacc p0 hp0 r hr
      · rcases List.mem_append.mp hp with h | h
        · exact hacc p h r hr
        · have hpe : p = (a.From ++ "/" ++ a.To, [a]) := by simpa using h
          subst hpe
          have hra : r = a := by simpa using hr
          subst hra
          exact hl r (List.mem_cons_self r l)
    · exact fun r hr => hl r (List.mem_cons_of_mem a hr)

theorem groupByPair_mem (reqs : List QuoteRequest) :
    ∀ p ∈ groupByPair reqs, ∀ r ∈ p.2, r ∈ reqs :=
  groupByPair_mem_aux (fun r => r ∈ reqs) reqs [] (by simp) (fun _ hr => hr)

theorem getPendingQuoteRequests_sub (s : Store) :
    ∀ r ∈ GetPendingQuoteRequests s, r ∈ s.requests ∧ r.Status = "pending" := by
  intro r hr
  rw [GetPendingQuoteRequests] at hr
  have h1 : r ∈ s.requests.filter (fun q => q.Status == "pending") :=
    List.mem_mergeSort.mp hr
  have h2 := List.mem_filter.mp h1
  exact ⟨h2.1, by simpa using h2.2⟩

theorem foldGroups_rowsOutside (S : List String) (rates : List (String × Rat)) (now : Nat) :
    ∀ (groups : List (String × List QuoteRequest)) (s : Store),
      (∀ p ∈ groups, ∀ r ∈ p.2, r.id ∈ S) →
      rowsOutside S s.requests
        ((groups.foldl (fun st p => processCurrencyPairWithRates p.2 rates now st) s).requests) := by
  intro groups
  induction groups with
  | nil => exact fun s _ => rowsOutside_refl S s.requests
  | cons p groups ih =>
    intro s hids
    rw [List.foldl_cons]
    exact rowsOutside_comp S _ _ _
      (processGroup_rowsOutside S p.2 rates now s (hids p (List.mem_cons_self p groups)))
      (ih _ (fun q hq => hids q (List.mem_cons_of_mem p hq)))

theorem processPending_rowsOutside
    (fetch : List String → Except String (List (String × Rat))) (now : Nat) (s : Store) :
    rowsOutside (idsOf (GetPendingQuoteRequests s)) s.requests
      (processPendingRequests fetch now s).requests := by
  simp only [processPendingRequests]
  by_cases hemp : (GetPendingQuoteRequests s).isEmpty = true
  · rw [if_pos hemp]
    exact rowsOutside_refl _ s.requests
  · rw [if_neg hemp]
    cases fetch (extractUniqueCurrencies (GetPendingQuoteRequests s)) with
    | error e =>
      rw [markAllRequestsAsFailed]
      exact (foldTryUpdate_rowsOutside _ "failed" now (GetPendingQuoteRequests s) s
        (fun r hr => List.mem_map_of_mem (fun q => q.id) hr)).1
    | ok rates =>
      exact foldGroups_rowsOutside _ rates now (groupByPair (GetPendingQuoteRequests s)) s
        (fun p hp r hr =>
          List.mem_map_of_mem (fun q => q.id) (groupByPair_mem (GetPendingQuoteRequests s) p hp r hr))

/-! ## Terminal requests stay untouched: C7 -/

/-- C7. A request already `completed` or `failed` is never transitioned by a
later cycle: discovery selects `pending` rows only, so a full cycle leaves the
terminal row — and every row carrying its id — exactly as it was. -/
theorem completedOrFailed_never_retransitioned
    (fetch : List String → Except String (List (String × Rat))) (now : Nat)
    (s : Store) (r : QuoteRequest)
    (hnodup : (s.requests.map (fun q => q.id)).Nodup)
    (hr : r ∈ s.requests)
    (hterm : r.Status = "completed" ∨ r.Status = "failed") :
    r ∈ (processPendingRequests fetch now s).requests ∧
    ∀ r' ∈ (processPendingRequests fetch now s).requests, r'.id = r.id → r' = r := by
  obtain ⟨g, hge, hgi, hgu⟩ := processPending_rowsOutside fetch now s
  have hnotin : r.id ∉ idsOf (GetPendingQuoteRequests s) := by
    intro hmem
    rw [idsOf] at hmem
    obtain ⟨q, hq, hqid⟩ := List.mem_map.mp hmem
    obtain ⟨hqmem, hqpend⟩ := getPendingQuoteRequests_sub s q hq
    have hqr : q = r := List.inj_on_of_nodup_map hnodup hqmem hr hqid
    rw [hqr] at hqpend
    rcases hterm with h | h <;> rw [h] at hqpend <;> exact absurd hqpend (by decide)
  refine ⟨?_, ?_⟩
  · rw [hge]
    exact List.mem_map.mpr ⟨r, hr, hgu r hnotin⟩
  · intro r' hr' hid
    rw [hge] at hr'
    obtain ⟨q, hq, hqe⟩ := List.mem_map.mp hr'
    have hqid : q.id = r.id := by rw [← hid, ← hqe, hgi q]
    have hqr : q = r := List.inj_on_of_nodup_map hnodup hq hr hqid
    subst hqr
    rw [← hqe, hgu q hnotin]

/-- Witness for C7: a completed row survives a full failing-fetch cycle
untouched. -/
theorem completedOrFailed_never_retransitioned_w :
    ({ id := "1", From := "EUR", To := "MXN", Status := "completed",
       CreatedAt := 1, UpdatedAt := 1 } : QuoteRequest) ∈
      (processPendingRequests (fun _ => .error "down") 9
        { requests := [{ id := "1", From := "EUR", To := "MXN", Status := "completed",
                         CreatedAt := 1, UpdatedAt := 1 },
                       { id := "2", From := "EUR", To := "MXN", Status := "pending",
                         CreatedAt := 2, UpdatedAt := 2 }], quotes := [] }).requests :=
  (completedOrFailed_never_retransitioned (fun _ => .error "down") 9
    { requests := [{ id := "1", From := "EUR", To := "MXN", Status := "completed",
                     CreatedAt := 1, UpdatedAt := 1 },
                   { id := "2", From := "EUR", To := "MXN", Status := "pending",
                     CreatedAt := 2, UpdatedAt := 2 }], quotes := [] }
    { id := "1", From := "EUR", To := "MXN", Status := "completed",
      CreatedAt := 1, UpdatedAt := 1 }
    (by decide) (by decide) (Or.inl rfl)).1

/-! ## Exact effect of the engine's bulk status writes -/

theorem bulkSetStatus_nil (status : String) (now : Nat) (l : List QuoteRequest) :
    bulkSetStatus [] status now l = l := by
  rw [bulkSetStatus]
  have h : ∀ r ∈ l,
      (if ([] : List QuoteRequest).any (fun x => x.id == r.id) then
        { r with Status := status, UpdatedAt := now } else r) = r :=
    fun r _ => rfl
  rw [List.map_congr_left h]
  exact List.map_id' l

theorem foldSetStatusRows_eq_bulk (status : String) (now : Nat) (reqs : List QuoteRequest) :
    ∀ l, reqs.foldl (fun acc r => setStatusRows r.id status now acc) l =
      bulkSetStatus reqs status now l := by
  induction reqs with
  | nil => intro l; rw [List.foldl_nil, bulkSetStatus_nil]
  | cons a reqs ih =>
    intro l
    rw [List.foldl_cons, ih (setStatusRows a.id status now l)]
    rw [bulkSetStatus, bulkSetStatus, setStatusRows, List.map_map]
    apply List.map_congr_left
    intro r _
    simp only [Function.comp_apply]
    by_cases hra : r.id = a.id
    · have h1 : (r.id == a.id) = true := by simp [hra]
      have h2 : (a.id == r.id) = true := by simp [hra]
      simp only [h1, if_true, List.any_cons, h2, Bool.true_or]
      by_cases hany : (reqs.any fun x => x.id == r.id) = true
      · simp [hany]
      · simp [hany]
    · have h1 : (r.id == a.id) = false := beq_eq_false_iff_ne.mpr hra
      have h2 : (a.id == r.id) = false := beq_eq_false_iff_ne.mpr (Ne.symm hra)
      simp only [h1, Bool.false_eq_true, if_false, List.any_cons, h2, Bool.false_or]

theorem foldTryUpdate_eq (status : String) (now : Nat) (hstat : status ≠ "pending")
    (reqs : List QuoteRequest) :
    ∀ s : Store, uniquePendingOK s.requests = true →
      reqs.foldl (fun st r => tryUpdateStatus r.id status now st) s =
        { s with requests := bulkSetStatus reqs status now s.requests } ∧
      uniquePendingOK (bulkSetStatus reqs status now s.requests) = true := by
  induction reqs with
  | nil =>
    intro s hwf
    rw [List.foldl_nil, bulkSetStatus_nil]
    exact ⟨rfl, hwf⟩
  | cons a reqs ih =>
    intro s hwf
    have hgate := setStatusRows_keeps_uniquePendingOK a.id status now s.requests hwf hstat
    have hstep : tryUpdateStatus a.id status now s =
        { s with requests := setStatusRows a.id status now s.requests } := by
      rw [tryUpdateStatus]
      have hok : UpdateQuoteRequestStatus a.id status now s =
          .ok { s with requests := setStatusRows a.id status now s.requests } := by
        simp only [UpdateQuoteRequestStatus]
        rw [if_pos hgate]
      rw [hok]
    rw [List.foldl_cons, hstep]
    obtain ⟨h1, h2⟩ := ih { s with requests := setStatusRows a.id status now s.requests } hgate
    rw [h1]
    have hbulk : bulkSetStatus reqs status now (setStatusRows a.id status now s.requests) =
        bulkSetStatus (a :: reqs) status now s.requests := by
      rw [← foldSetStatusRows_eq_bulk, ← foldSetStatusRows_eq_bulk, List.foldl_cons]
    constructor
    · rw [← hbulk]
    · rw [← hbulk]
      exact h2

theorem bulkSetStatus_status (reqs : List QuoteRequest) (status : String) (now : Nat)
    (l : List QuoteRequest) (x : String) (hx : ∃ q ∈ reqs, q.id = x) :
    ∀ r' ∈ bulkSetStatus reqs status now l, r'.id = x → r'.Status = status := by
  intro r' hr' hid
  rw [bulkSetStatus] at hr'
  obtain ⟨r, hr, hre⟩ := List.mem_map.mp hr'
  by_cases hany : (reqs.any fun q => q.id == r.id) = true
  · rw [if_pos hany] at hre
    rw [← hre]
  · rw [if_neg hany] at hre
    exfalso
    apply hany
    rw [List.any_eq_true]
    obtain ⟨q, hq, hqx⟩ := hx
    subst hre
    exact ⟨q, hq, by rw [beq_iff_eq, hqx, hid]⟩

theorem bulkSetStatus_mem (reqs : List QuoteRequest) (status : String) (now : Nat)
    (l : List QuoteRequest) :
    ∀ r ∈ l, ∃ r' ∈ bulkSetStatus reqs status now l, r'.id = r.id := by
  intro r hr
  rw [bulkSetStatus]
  refine ⟨_, List.mem_map_of_mem _ hr, ?_⟩
  by_cases hany : (reqs.any fun q => q.id == r.id) = true <;> simp [hany]

theorem bulkSetStatus_untouched (reqs : List QuoteRequest) (status : String) (now : Nat)
    (l : List QuoteRequest) :
    ∀ r ∈ l, (reqs.any fun q => q.id == r.id) = false →
      r ∈ bulkSetStatus reqs status now l := by
  intro r hr hany
  rw [bulkSetStatus]
  refine List.mem_map.mpr ⟨r, hr, ?_⟩
  rw [if_neg (by simp [hany])]

/-! ## A failing Rate Source fetch fails the whole cycle: C3 -/

/-- C3. When discovery finds a non-empty pending set and the single Rate
Source fetch of the cycle fails, the cycle is exactly
`markAllRequestsAsFailed`: every discovered request ends `failed`, no Quote is
written, and every row that was not discovered is untouched. -/
theorem fetchFailure_allFailed
    (fetch : List String → Except String (List (String × Rat))) (now : Nat)
    (s : Store) (msg : String)
    (hwf : uniquePendingOK s.requests = true)
    (hnodup : (s.requests.map (fun q => q.id)).Nodup)
    (hne : GetPendingQuoteRequests s ≠ [])
    (hf : fetch (extractUniqueCurrencies (GetPendingQuoteRequests s)) = .error msg) :
    processPendingRequests fetch now s =
      markAllRequestsAsFailed (GetPendingQuoteRequests s) now s ∧
    (∀ r ∈ GetPendingQuoteRequests s,
      ∃ r' ∈ (processPendingRequests fetch now s).requests,
        r'.id = r.id ∧ r'.Status = "failed") ∧
    (∀ r ∈ GetPendingQuoteRequests s,
      ∀ r' ∈ (processPendingRequests fetch now s).requests,
        r'.id = r.id → r'.Status = "failed") ∧
    (processPendingRequests fetch now s).quotes = s.quotes ∧
    (∀ r ∈ s.requests, r.Status ≠ "pending" →
      r ∈ (processPendingRequests fetch now s).requests) := by
  have hemp : (GetPendingQuoteRequests s).isEmpty = false := by
    cases hq : GetPendingQuoteRequests s with
    | nil => exact absurd hq hne
    | cons a l => rfl
  have hcycle : processPendingRequests fetch now s =
      markAllRequestsAsFailed (GetPendingQuoteRequests s) now s := by
    simp only [processPendingRequests]
    rw [if_neg (by simp [hemp]), hf]
  obtain ⟨hmark, hmwf⟩ : markAllRequestsAsFailed (GetPendingQuoteRequests s) now s =
      { s with requests := bulkSetStatus (GetPendingQuoteRequests s) "failed" now s.requests } ∧
      uniquePendingOK (bulkSetStatus (GetPendingQuoteRequests s) "failed" now s.requests) = true := by
    rw [markAllRequestsAsFailed]
    exact foldTryUpdate_eq "failed" now (by decide) (GetPendingQuoteRequests s) s hwf
  have hres : (processPendingRequests fetch now s).requests =
      bulkSetStatus (GetPendingQuoteRequests s) "failed" now s.requests := by
    rw [hcycle, hmark]
  refine ⟨hcycle, ?_, ?_, ?_, ?_⟩
  · intro r hr
    obtain ⟨hrs, _⟩ := getPendingQuoteRequests_sub s r hr
    obtain ⟨r', hr', hid⟩ :=
      bulkSetStatus_mem (GetPendingQuoteRequests s) "failed" now s.requests r hrs
    refine ⟨r', by rw [hres]; exact hr', hid, ?_⟩
    exact bulkSetStatus_status (GetPendingQuoteRequests s) "failed" now s.requests r.id
      ⟨r, hr, rfl⟩ r' hr' hid
  · intro r hr r' hr' hid
    rw [hres] at hr'
    exact bulkSetStatus_status (GetPendingQuoteRequests s) "failed" now s.requests r.id
      ⟨r, hr, rfl⟩ r' hr' hid
  · rw [hcycle, hmark]
  · intro r hr hnp
    rw [hres]
    apply bulkSetStatus_untouched (GetPendingQuoteRequests s) "failed" now s.requests r hr
    rw [List.any_eq_false]
    intro q hq
    obtain ⟨hqs, hqpend⟩ := getPendingQuoteRequests_sub s q hq
    intro hqid
    rw [beq_iff_eq] at hqid
    have hqr : q = r := List.inj_on_of_nodup_map hnodup hqs hr hqid
    rw [hqr] at hqpend
    exact hnp hqpend

/-- Witness for C3: one pending request, a failing fetch; the request ends
`failed` and no quote appears. -/
theorem fetchFailure_allFailed_w :
    (processPendingRequests (fun _ => .error "timeout") 9
      { requests := [{ id := "1", From := "EUR", To := "MXN", Status := "pending",
                       CreatedAt := 1, UpdatedAt := 1 }], quotes := [] }).quotes = [] ∧
    ∃ r' ∈ (processPendingRequests (fun _ => .error "timeout") 9
      { requests := [{ id := "1", From := "EUR", To := "MXN", Status := "pending",
                       CreatedAt := 1, UpdatedAt := 1 }], quotes := [] }).requests,
      r'.id = "1" ∧ r'.Status = "failed" := by
  have hmem : ({ id := "1", From := "EUR", To := "MXN", Status := "pending", CreatedAt := 1, UpdatedAt := 1 } : QuoteRequest) ∈ GetPendingQuoteRequests { requests := [{ id := "1", From := "EUR", To := "MXN", Status := "pending", CreatedAt := 1, UpdatedAt := 1 }], quotes := [] } := by
    rw [GetPendingQuoteRequests]
    exact List.mem_mergeSort.mpr (by decide)
  have h := fetchFailure_allFailed (fun _ => .error "timeout") 9
    { requests := [{ id := "1", From := "EUR", To := "MXN", Status := "pending",
                     CreatedAt := 1, UpdatedAt := 1 }], quotes := [] }
    "timeout" (by decide) (by decide) (List.ne_nil_of_mem hmem) rfl
  exact ⟨h.2.2.2.1, h.2.1 _ hmem⟩

/-! ## Effect of a quote upsert on lookups by pair -/

theorem upsertQuoteRows_findQuote_other (f t f2 t2 : String) (rate : Rat) (now : Nat)
    (qs : List Quote) (hne : ¬(f2 = f ∧ t2 = t)) :
    findQuote f2 t2 (upsertQuoteRows f t rate now qs) = findQuote f2 t2 qs := by
  rw [upsertQuoteRows]
  split
  · rw [findQuote, List.find?_map]
    have hcomp : ((fun (q : Quote) => q.From == f2 && q.To == t2) ∘
        (fun (q : Quote) => if q.From == f && q.To == t then { q with Rate := rate, UpdatedAt := now } else q)) =
        fun (q : Quote) => q.From == f2 && q.To == t2 := by
      funext q
      by_cases hq : (q.From == f && q.To == t) = true <;> simp [Function.comp, hq]
    rw [hcomp]
    cases hfind : List.find? (fun q => q.From == f2 && q.To == t2) qs with
    | none =>
      rw [findQuote, hfind]
      rfl
    | some q =>
      have hp := List.find?_some hfind
      simp only [Bool.and_eq_true, beq_iff_eq] at hp
      have hnot : (q.From == f && q.To == t) = false := by
        rw [Bool.eq_false_iff]
        intro hc
        simp only [Bool.and_eq_true, beq_iff_eq] at hc
        exact hne ⟨hp.1.symm.trans hc.1, hp.2.symm.trans hc.2⟩
      rw [findQuote, hfind]
      simp only [Option.map_some']
      rw [if_neg (by simp [hnot])]
  · rw [findQuote, findQuote, List.find?_append]
    have hnew : List.find? (fun (q : Quote) => q.From == f2 && q.To == t2) [{ id := generateID now, From := f, To := t, Rate := rate, CreatedAt := now, UpdatedAt := now }] = none := by
      rw [List.find?_eq_none]
      intro x hx
      have hxe : x = ({ id := generateID now, From := f, To := t, Rate := rate, CreatedAt := now, UpdatedAt := now } : Quote) := by simpa using hx
      subst hxe
      simp only [Bool.and_eq_true, beq_iff_eq, not_and]
      intro h1 h2
      exact hne ⟨h1.symm, h2.symm⟩
    rw [hnew]
    cases List.find? (fun q => q.From == f2 && q.To == t2) qs <;> rfl

theorem upsertQuoteRows_findQuote_self (f t : String) (rate : Rat) (now : Nat)
    (qs : List Quote) :
    ∃ q, findQuote f t (upsertQuoteRows f t rate now qs) = some q ∧
      q.From = f ∧ q.To = t ∧ q.Rate = rate := by
  rw [upsertQuoteRows]
  split
  · rename_i hany
    rw [findQuote, List.find?_map]
    have hcomp : ((fun (q : Quote) => q.From == f && q.To == t) ∘
        (fun (q : Quote) => if q.From == f && q.To == t then { q with Rate := rate, UpdatedAt := now } else q)) =
        fun (q : Quote) => q.From == f && q.To == t := by
      funext q
      by_cases hq : (q.From == f && q.To == t) = true <;> simp [Function.comp, hq]
    rw [hcomp]
    have hsome : (List.find? (fun q => q.From == f && q.To == t) qs).isSome = true :=
      List.find?_isSome.mpr (List.any_eq_true.mp hany)
    cases hfind : List.find? (fun q => q.From == f && q.To == t) qs with
    | none => rw [hfind] at hsome; cases hsome
    | some q0 =>
      have hp := List.find?_some hfind
      have hp' := hp
      simp only [Bool.and_eq_true, beq_iff_eq] at hp'
      refine ⟨{ q0 with Rate := rate, UpdatedAt := now }, ?_, hp'.1, hp'.2, rfl⟩
      simp [Option.map, hp]
  · rename_i hany
    refine ⟨{ id := generateID now, From := f, To := t, Rate := rate, CreatedAt := now, UpdatedAt := now }, ?_, rfl, rfl, rfl⟩
    rw [findQuote, List.find?_append]
    have hnone : List.find? (fun q => q.From == f && q.To == t) qs = none := by
      rw [List.find?_eq_none]
      intro x hx hpx
      apply hany
      rw [List.any_eq_true]
      exact ⟨x, hx, hpx⟩
    rw [hnone]
    simp [List.find?]

/-! ## Exact per-group effect of `processCurrencyPairWithRates` -/

theorem processGroup_spec_error (r0 : QuoteRequest) (rest : List QuoteRequest)
    (rates : List (String × Rat)) (now : Nat) (s : Store) (e : String)
    (hwf : uniquePendingOK s.requests = true)
    (hcalc : CalculateExchangeRate r0.From r0.To rates = .error e) :
    processCurrencyPairWithRates (r0 :: rest) rates now s =
      { s with requests := bulkSetStatus (r0 :: rest) "failed" now (bulkSetStatus (r0 :: rest) "processing" now s.requests) } := by
  simp only [processCurrencyPairWithRates]
  obtain ⟨h1, h1wf⟩ := foldTryUpdate_eq "processing" now (by decide) (r0 :: rest) s hwf
  rw [h1, hcalc]
  obtain ⟨h2, _⟩ := foldTryUpdate_eq "failed" now (by decide) (r0 :: rest)
    { requests := bulkSetStatus (r0 :: rest) "processing" now s.requests, quotes := s.quotes } h1wf
  exact h2

theorem processGroup_spec_ok (r0 : QuoteRequest) (rest : List QuoteRequest)
    (rates : List (String × Rat)) (now : Nat) (s : Store) (rate : Rat)
    (hwf : uniquePendingOK s.requests = true)
    (hcalc : CalculateExchangeRate r0.From r0.To rates = .ok rate) :
    processCurrencyPairWithRates (r0 :: rest) rates now s =
      { s with
          requests := bulkSetStatus (r0 :: rest) "completed" now (bulkSetStatus (r0 :: rest) "processing" now s.requests),
          quotes := upsertQuoteRows r0.From r0.To rate now s.quotes } := by
  simp only [processCurrencyPairWithRates]
  obtain ⟨h1, h1wf⟩ := foldTryUpdate_eq "processing" now (by decide) (r0 :: rest) s hwf
  rw [h1, hcalc]
  simp only [UpsertQuote]
  obtain ⟨h2, _⟩ := foldTryUpdate_eq "completed" now (by decide) (r0 :: rest)
    { requests := bulkSetStatus (r0 :: rest) "processing" now s.requests,
      quotes := upsertQuoteRows r0.From r0.To rate now s.quotes } h1wf
  exact h2

theorem bulkSetStatus_keeps_wf (reqs : List QuoteRequest) (status : String) (now : Nat)
    (l : List QuoteRequest) (hwf : uniquePendingOK l = true) (hstat : status ≠ "pending") :
    uniquePendingOK (bulkSetStatus reqs status now l) = true :=
  (foldTryUpdate_eq status now hstat reqs { requests := l, quotes := [] } hwf).2

theorem processGroup_keeps_wf (reqs : List QuoteRequest) (rates : List (String × Rat))
    (now : Nat) (s : Store) (hwf : uniquePendingOK s.requests = true) :
    uniquePendingOK (processCurrencyPairWithRates reqs rates now s).requests = true := by
  cases reqs with
  | nil =>
    simp only [processCurrencyPairWithRates, List.foldl_nil]
    exact hwf
  | cons r0 rest =>
    cases hcalc : CalculateExchangeRate r0.From r0.To rates with
    | error e =>
      rw [processGroup_spec_error r0 rest rates now s e hwf hcalc]
      exact bulkSetStatus_keeps_wf (r0 :: rest) "failed" now _
        (bulkSetStatus_keeps_wf (r0 :: rest) "processing" now _ hwf (by decide)) (by decide)
    | ok rate =>
      rw [processGroup_spec_ok r0 rest rates now s rate hwf hcalc]
      exact bulkSetStatus_keeps_wf (r0 :: rest) "completed" now _
        (bulkSetStatus_keeps_wf (r0 :: rest) "processing" now _ hwf (by decide)) (by decide)

theorem processGroup_quotes (reqs : List QuoteRequest) (rates : List (String × Rat))
    (now : Nat) (s : Store) (hwf : uniquePendingOK s.requests = true) :
    (processCurrencyPairWithRates reqs rates now s).quotes = s.quotes ∨
    ∃ r0 rest rate, reqs = r0 :: rest ∧
      CalculateExchangeRate r0.From r0.To rates = .ok rate ∧
      (processCurrencyPairWithRates reqs rates now s).quotes =
        upsertQuoteRows r0.From r0.To rate now s.quotes := by
  cases reqs with
  | nil =>
    left
    simp only [processCurrencyPairWithRates, List.foldl_nil]
  | cons r0 rest =>
    cases hcalc : CalculateExchangeRate r0.From r0.To rates with
    | error e =>
      left
      rw [processGroup_spec_error r0 rest rates now s e hwf hcalc]
    | ok rate =>
      right
      refine ⟨r0, rest, rate, rfl, hcalc, ?_⟩
      rw [processGroup_spec_ok r0 rest rates now s rate hwf hcalc]

/-! ## Structure of the groups produced by `groupByPair` -/

theorem groupStep_invariant :
    ∀ (l : List QuoteRequest) (acc : List (String × List QuoteRequest)),
      ((∀ p ∈ acc, ∀ r ∈ p.2, r.From ++ "/" ++ r.To = p.1) ∧
       List.Pairwise (fun p1 p2 => p1.1 ≠ p2.1) acc ∧
       (∀ p ∈ acc, p.2 ≠ [])) →
      ((∀ p ∈ l.foldl groupStep acc, ∀ r ∈ p.2, r.From ++ "/" ++ r.To = p.1) ∧
       List.Pairwise (fun p1 p2 => p1.1 ≠ p2.1) (l.foldl groupStep acc) ∧
       (∀ p ∈ l.foldl groupStep acc, p.2 ≠ [])) := by
  intro l
  induction l with
  | nil => exact fun acc h => h
  | cons a l ih =>
    intro acc ⟨hkey, hnd, hne⟩
    rw [List.foldl_cons]
    apply ih
    refine ⟨?_, ?_, ?_⟩
    · intro p hp r hr
      simp only [groupStep] at hp
      split at hp
      · obtain ⟨p0, hp0, hpe⟩ := List.mem_map.mp hp
        subst hpe
        by_cases hk : (p0.1 == a.From ++ "/" ++ a.To) = true
        · rw [if_pos hk] at hr ⊢
          rcases List.mem_append.mp hr with h | h
          · exact hkey p0 hp0 r h
          · have hra : r = a := by simpa using h
            subst hra
            rw [beq_iff_eq] at hk
            exact hk.symm
        · rw [if_neg hk] at hr ⊢
          exact hkey p0 hp0 r hr
      · rcases List.mem_append.mp hp with h | h
        · exact hkey p h r hr
        · have hpe : p = (a.From ++ "/" ++ a.To, [a]) := by simpa using h
          subst hpe
          have hra : r = a := by simpa using hr
          subst hra
          rfl
    · simp only [groupStep]
      split
      · rw [List.pairwise_map]
        apply List.Pairwise.imp_of_mem ?_ hnd
        intro p1 p2 _ _ h12
        by_cases h1 : (p1.1 == a.From ++ "/" ++ a.To) = true <;>
          by_cases h2 : (p2.1 == a.From ++ "/" ++ a.To) = true <;>
          simp only [h1, h2, if_true, if_false, Bool.false_eq_true, if_neg, not_false_iff] <;>
          simpa using h12
      · rename_i hnotany
        rw [List.pairwise_append]
        refine ⟨hnd, by simp, ?_⟩
        intro p1 hp1 p2 hp2
        have hp2e : p2 = (a.From ++ "/" ++ a.To, [a]) := by simpa using hp2
        subst hp2e
        have : ¬((acc.any fun p => p.1 == a.From ++ "/" ++ a.To) = true) := hnotany
        rw [List.any_eq_true] at this
        push_neg at this
        have h1 := this p1 hp1
        simpa using h1
    · intro p hp
      simp only [groupStep] at hp
      split at hp
      · obtain ⟨p0, hp0, hpe⟩ := List.mem_map.mp hp
        subst hpe
        by_cases hk : (p0.1 == a.From ++ "/" ++ a.To) = true
        · rw [if_pos hk]
          simp
        · rw [if_neg hk]
          exact hne p0 hp0
      · rcases List.mem_append.mp hp with h | h
        · exact hne p h
        · have hpe : p = (a.From ++ "/" ++ a.To, [a]) := by simpa using h
          subst hpe
          simp

theorem groupByPair_invariants (reqs : List QuoteRequest) :
    (∀ p ∈ groupByPair reqs, ∀ r ∈ p.2, r.From ++ "/" ++ r.To = p.1) ∧
    List.Pairwise (fun p1 p2 => p1.1 ≠ p2.1) (groupByPair reqs) ∧
    (∀ p ∈ groupByPair reqs, p.2 ≠ []) :=
  groupStep_invariant reqs [] ⟨by simp, by simp, by simp⟩

theorem getPendingQuoteRequests_nodup_ids (s : Store)
    (hnodup : (s.requests.map (fun q => q.id)).Nodup) :
    ((GetPendingQuoteRequests s).map (fun q => q.id)).Nodup := by
  rw [GetPendingQuoteRequests]
  have hperm := (List.mergeSort_perm (s.requests.filter (fun r => r.Status == "pending"))
    (fun a b => a.CreatedAt ≤ b.CreatedAt)).map (fun q => q.id)
  rw [hperm.nodup_iff]
  exact List.Nodup.sublist
    ((List.filter_sublist s.requests).map (fun q => q.id)) hnodup

/-! ## Tracking a request's status across the rest of a cycle -/

theorem statusOfId_bulk (x status : String) (now : Nat) (reqs l : List QuoteRequest)
    (hx : ∃ q ∈ reqs, q.id = x) (hpres : ∃ q ∈ l, q.id = x) :
    statusOfId x status (bulkSetStatus reqs status now l) := by
  constructor
  · obtain ⟨q, hq, hqx⟩ := hpres
    have hany : (reqs.any fun p => p.id == q.id) = true := by
      rw [List.any_eq_true]
      obtain ⟨q2, hq2, hq2x⟩ := hx
      exact ⟨q2, hq2, by rw [beq_iff_eq, hq2x, hqx]⟩
    rw [bulkSetStatus]
    refine ⟨_, List.mem_map_of_mem _ hq, ?_, ?_⟩
    · rw [if_pos hany]
      simpa using hqx
    · rw [if_pos hany]
  · exact fun r' hr' hid => bulkSetStatus_status reqs status now l x hx r' hr' hid

theorem statusOfId_transfer (x status : String) (S : List String)
    (l l' : List QuoteRequest) (hout : rowsOutside S l l') (hx : x ∉ S)
    (h : statusOfId x status l) : statusOfId x status l' := by
  obtain ⟨g, hge, hgi, hgu⟩ := hout
  obtain ⟨⟨r, hr, hrx, hrs⟩, hall⟩ := h
  constructor
  · refine ⟨g r, by rw [hge]; exact List.mem_map_of_mem g hr, ?_, ?_⟩
    · rw [hgi r, hrx]
    · rw [hgu r (by rw [hrx]; exact hx)]
      exact hrs
  · intro r' hr' hid
    rw [hge] at hr'
    obtain ⟨q, hq, hqe⟩ := List.mem_map.mp hr'
    have hqid : q.id = x := by rw [← hid, ← hqe, hgi q]
    have hgq : g q = q := hgu q (by rw [hqid]; exact hx)
    rw [← hqe, hgq]
    exact hall q hq hqid

theorem presence_transfer (x : String) (S : List String) (l l' : List QuoteRequest)
    (hout : rowsOutside S l l') (h : ∃ q ∈ l, q.id = x) : ∃ q ∈ l', q.id = x := by
  obtain ⟨g, hge, hgi, _⟩ := hout
  obtain ⟨q, hq, hqx⟩ := h
  exact ⟨g q, by rw [hge]; exact List.mem_map_of_mem g hq, by rw [hgi q, hqx]⟩

theorem foldGroups_findQuote (f2 t2 : String) (rates : List (String × Rat)) (now : Nat) :
    ∀ (groups : List (String × List QuoteRequest)) (s : Store),
      uniquePendingOK s.requests = true →
      (∀ p ∈ groups, ∀ r ∈ p.2, r.From ++ "/" ++ r.To = p.1) →
      (∀ p ∈ groups, p.1 ≠ f2 ++ "/" ++ t2) →
      findQuote f2 t2
          ((groups.foldl (fun st g => processCurrencyPairWithRates g.2 rates now st) s).quotes) =
        findQuote f2 t2 s.quotes := by
  intro groups
  induction groups with
  | nil => exact fun s _ _ _ => rfl
  | cons p groups ih =>
    intro s hwf hkeys hkne
    rw [List.foldl_cons]
    have hstep : findQuote f2 t2 ((processCurrencyPairWithRates p.2 rates now s).quotes) =
        findQuote f2 t2 s.quotes := by
      rcases processGroup_quotes p.2 rates now s hwf with h | ⟨r0, rest, rate, hp2, _, h⟩
      · rw [h]
      · rw [h]
        apply upsertQuoteRows_findQuote_other
        intro ⟨hf, ht⟩
        apply hkne p (List.mem_cons_self p groups)
        have hkr0 : r0.From ++ "/" ++ r0.To = p.1 :=
          hkeys p (List.mem_cons_self p groups) r0 (by rw [hp2]; exact List.mem_cons_self r0 rest)
        rw [← hkr0, hf, ht]
    rw [← hstep]
    exact ih (processCurrencyPairWithRates p.2 rates now s)
      (processGroup_keeps_wf p.2 rates now s hwf)
      (fun q hq r hr => hkeys q (List.mem_cons_of_mem p hq) r hr)
      (fun q hq => hkne q (List.mem_cons_of_mem p hq))

/-! ## Per-group outcome of a full resolve phase -/

theorem foldGroups_spec (rates : List (String × Rat)) (now : Nat) :
    ∀ (groups : List (String × List QuoteRequest)) (s : Store),
      uniquePendingOK s.requests = true →
      (∀ p ∈ groups, ∀ r ∈ p.2, r.From ++ "/" ++ r.To = p.1) →
      List.Pairwise (fun p1 p2 => p1.1 ≠ p2.1) groups →
      List.Pairwise (fun p1 p2 => ∀ r1 ∈ p1.2, ∀ r2 ∈ p2.2, r1.id ≠ r2.id) groups →
      (∀ p ∈ groups, ∀ r ∈ p.2, ∃ q ∈ s.requests, q.id = r.id) →
      ∀ p ∈ groups, ∀ r0 rest, p.2 = r0 :: rest →
        ((∀ e, CalculateExchangeRate r0.From r0.To rates = .error e →
          (∀ r ∈ p.2, statusOfId r.id "failed"
            ((groups.foldl (fun st g => processCurrencyPairWithRates g.2 rates now st) s).requests)) ∧
          findQuote r0.From r0.To
              ((groups.foldl (fun st g => processCurrencyPairWithRates g.2 rates now st) s).quotes) =
            findQuote r0.From r0.To s.quotes) ∧
        (∀ rate, CalculateExchangeRate r0.From r0.To rates = .ok rate →
          (∀ r ∈ p.2, statusOfId r.id "completed"
            ((groups.foldl (fun st g => processCurrencyPairWithRates g.2 rates now st) s).requests)) ∧
          ∃ q ∈ (groups.foldl (fun st g => processCurrencyPairWithRates g.2 rates now st) s).quotes,
            q.From = r0.From ∧ q.To = r0.To ∧ q.Rate = rate)) := by
  intro groups
  induction groups with
  | nil =>
    intro s _ _ _ _ _ p hp
    exact absurd hp (List.not_mem_nil p)
  | cons ph groups ih =>
    intro s hwf hkeys hknd hdisj hpres p hp r0 rest hp2
    rw [List.foldl_cons]
    obtain ⟨hknd_head, hknd_tail⟩ := List.pairwise_cons.mp hknd
    obtain ⟨hdisj_head, hdisj_tail⟩ := List.pairwise_cons.mp hdisj
    have hwf1 := processGroup_keeps_wf ph.2 rates now s hwf
    have hout1 : rowsOutside (idsOf ph.2) s.requests
        (processCurrencyPairWithRates ph.2 rates now s).requests :=
      processGroup_rowsOutside (idsOf ph.2) ph.2 rates now s
        (fun r hr => List.mem_map_of_mem (fun q => q.id) hr)
    have hpres1 : ∀ q ∈ ph :: groups, ∀ r ∈ q.2,
        ∃ w ∈ (processCurrencyPairWithRates ph.2 rates now s).requests, w.id = r.id :=
      fun q hq r hr => presence_transfer r.id (idsOf ph.2) _ _ hout1 (hpres q hq r hr)
    have hkeys_tail : ∀ q ∈ groups, ∀ r ∈ q.2, r.From ++ "/" ++ r.To = q.1 :=
      fun q hq => hkeys q (List.mem_cons_of_mem ph hq)
    rcases List.mem_cons.mp hp with hpe | hptail
    · -- the target group is the head group
      subst hpe
      have hkr0 : r0.From ++ "/" ++ r0.To = p.1 :=
        hkeys p (List.mem_cons_self p groups) r0 (by rw [hp2]; exact List.mem_cons_self r0 rest)
      have hkne_tail : ∀ q ∈ groups, q.1 ≠ r0.From ++ "/" ++ r0.To := by
        intro q hq heq
        exact hknd_head q hq (by rw [← hkr0, heq])
      have houtRest : rowsOutside (groups.flatMap (fun g => idsOf g.2))
          (processCurrencyPairWithRates p.2 rates now s).requests
          ((groups.foldl (fun st g => processCurrencyPairWithRates g.2 rates now st)
            (processCurrencyPairWithRates p.2 rates now s)).requests) :=
        foldGroups_rowsOutside (groups.flatMap (fun g => idsOf g.2)) rates now groups
          (processCurrencyPairWithRates p.2 rates now s)
          (fun q hq r hr => List.mem_flatMap.mpr ⟨q, hq, List.mem_map_of_mem (fun w => w.id) hr⟩)
      have hnotinRest : ∀ r ∈ p.2, r.id ∉ groups.flatMap (fun g => idsOf g.2) := by
        intro r hr hmem
        obtain ⟨q, hq, hridq⟩ := List.mem_flatMap.mp hmem
        obtain ⟨r2, hr2, hr2id⟩ := List.mem_map.mp hridq
        exact hdisj_head q hq r hr r2 hr2 hr2id.symm
      have hpresInner : ∀ r ∈ p.2,
          ∃ w ∈ bulkSetStatus (r0 :: rest) "processing" now s.requests, w.id = r.id := by
        intro r hr
        obtain ⟨q, hqs, hqid⟩ := hpres p (List.mem_cons_self p groups) r hr
        obtain ⟨w, hw, hwid⟩ := bulkSetStatus_mem (r0 :: rest) "processing" now s.requests q hqs
        exact ⟨w, hw, hwid.trans hqid⟩
      constructor
      · intro e hcalc
        have hs1 : processCurrencyPairWithRates p.2 rates now s =
            { s with requests := bulkSetStatus (r0 :: rest) "failed" now (bulkSetStatus (r0 :: rest) "processing" now s.requests) } := by
          rw [hp2]
          exact processGroup_spec_error r0 rest rates now s e hwf hcalc
        constructor
        · intro r hr
          have hst1 : statusOfId r.id "failed"
              ((processCurrencyPairWithRates p.2 rates now s).requests) := by
            rw [hs1]
            exact statusOfId_bulk r.id "failed" now (r0 :: rest)
              (bulkSetStatus (r0 :: rest) "processing" now s.requests)
              ⟨r, by rw [← hp2]; exact hr, rfl⟩ (hpresInner r hr)
          exact statusOfId_transfer r.id "failed" (groups.flatMap (fun g => idsOf g.2))
            _ _ houtRest (hnotinRest r hr) hst1
        · have hq1 : (processCurrencyPairWithRates p.2 rates now s).quotes = s.quotes := by
            rw [hs1]
          rw [foldGroups_findQuote r0.From r0.To rates now groups
            (processCurrencyPairWithRates p.2 rates now s) hwf1 hkeys_tail hkne_tail, hq1]
      · intro rate hcalc
        have hs1 : processCurrencyPairWithRates p.2 rates now s =
            { s with requests := bulkSetStatus (r0 :: rest) "completed" now (bulkSetStatus (r0 :: rest) "processing" now s.requests), quotes := upsertQuoteRows r0.From r0.To rate now s.quotes } := by
          rw [hp2]
          exact processGroup_spec_ok r0 rest rates now s rate hwf hcalc
        constructor
        · intro r hr
          have hst1 : statusOfId r.id "completed"
              ((processCurrencyPairWithRates p.2 rates now s).requests) := by
            rw [hs1]
            exact statusOfId_bulk r.id "completed" now (r0 :: rest)
              (bulkSetStatus (r0 :: rest) "processing" now s.requests)
              ⟨r, by rw [← hp2]; exact hr, rfl⟩ (hpresInner r hr)
          exact statusOfId_transfer r.id "completed" (groups.flatMap (fun g => idsOf g.2))
            _ _ houtRest (hnotinRest r hr) hst1
        · obtain ⟨q, hfq, hqf, hqt, hqr⟩ :=
            upsertQuoteRows_findQuote_self r0.From r0.To rate now s.quotes
          have hq1 : findQuote r0.From r0.To
              ((processCurrencyPairWithRates p.2 rates now s).quotes) = some q := by
            rw [hs1]
            exact hfq
          have hfold := foldGroups_findQuote r0.From r0.To rates now groups
            (processCurrencyPairWithRates p.2 rates now s) hwf1 hkeys_tail hkne_tail
          rw [hq1] at hfold
          exact ⟨q, List.mem_of_find?_eq_some hfold, hqf, hqt, hqr⟩
    · -- the target group sits in the tail
      have hkr0 : r0.From ++ "/" ++ r0.To = p.1 :=
        hkeys p (List.mem_cons_of_mem ph hptail) r0 (by rw [hp2]; exact List.mem_cons_self r0 rest)
      have hbridge : findQuote r0.From r0.To
          ((processCurrencyPairWithRates ph.2 rates now s).quotes) =
          findQuote r0.From r0.To s.quotes := by
        rcases processGroup_quotes ph.2 rates now s hwf with h | ⟨f0, frest, frate, hph2, _, h⟩
        · rw [h]
        · rw [h]
          apply upsertQuoteRows_findQuote_other
          intro ⟨hf, ht⟩
          apply hknd_head p hptail
          have hkf0 : f0.From ++ "/" ++ f0.To = ph.1 :=
            hkeys ph (List.mem_cons_self ph groups) f0
              (by rw [hph2]; exact List.mem_cons_self f0 frest)
          rw [← hkf0, ← hf, ← ht, hkr0]
      obtain ⟨ihErr, ihOk⟩ := ih (processCurrencyPairWithRates ph.2 rates now s) hwf1
        hkeys_tail hknd_tail hdisj_tail
        (fun q hq => hpres1 q (List.mem_cons_of_mem ph hq)) p hptail r0 rest hp2
      refine ⟨?_, ihOk⟩
      intro e hcalc
      exact ⟨(ihErr e hcalc).1, by rw [(ihErr e hcalc).2, hbridge]⟩

/-- C4. Within one cycle with a successful fetch, each (from, to) group is
resolved independently: a group whose cross-rate computation fails with
UnknownCurrency has exactly its requests transitioned to `failed` and no
Quote written for its pair, while every group whose currencies are present in
the table has its Quote upserted and its requests transitioned to
`completed`. -/
theorem unknownCurrency_isolated
    (fetch : List String → Except String (List (String × Rat))) (now : Nat)
    (s : Store) (rates : List (String × Rat))
    (hwf : uniquePendingOK s.requests = true)
    (hnodup : (s.requests.map (fun q => q.id)).Nodup)
    (hfetch : fetch (extractUniqueCurrencies (GetPendingQuoteRequests s)) = .ok rates) :
    ∀ p ∈ groupByPair (GetPendingQuoteRequests s), ∀ r0 rest, p.2 = r0 :: rest →
      ((∀ e, CalculateExchangeRate r0.From r0.To rates = .error e →
        (∀ r ∈ p.2, statusOfId r.id "failed" (processPendingRequests fetch now s).requests) ∧
        findQuote r0.From r0.To (processPendingRequests fetch now s).quotes =
          findQuote r0.From r0.To s.quotes) ∧
      (∀ rate, CalculateExchangeRate r0.From r0.To rates = .ok rate →
        (∀ r ∈ p.2, statusOfId r.id "completed" (processPendingRequests fetch now s).requests) ∧
        ∃ q ∈ (processPendingRequests fetch now s).quotes,
          q.From = r0.From ∧ q.To = r0.To ∧ q.Rate = rate)) := by
  intro p hp r0 rest hp2
  by_cases hemp : (GetPendingQuoteRequests s).isEmpty = true
  · exfalso
    have hnil : GetPendingQuoteRequests s = [] := by
      cases hq : GetPendingQuoteRequests s with
      | nil => rfl
      | cons a l => rw [hq] at hemp; cases hemp
    rw [hnil] at hp
    simp [groupByPair] at hp
  · have hcycle : processPendingRequests fetch now s =
        (groupByPair (GetPendingQuoteRequests s)).foldl
          (fun st g => processCurrencyPairWithRates g.2 rates now st) s := by
      simp only [processPendingRequests]
      rw [if_neg hemp, hfetch]
    obtain ⟨hkeys, hknd, _⟩ := groupByPair_invariants (GetPendingQuoteRequests s)
    have hdiscN := getPendingQuoteRequests_nodup_ids s hnodup
    have hdisj : List.Pairwise (fun p1 p2 => ∀ r1 ∈ p1.2, ∀ r2 ∈ p2.2, r1.id ≠ r2.id)
        (groupByPair (GetPendingQuoteRequests s)) := by
      apply List.Pairwise.imp_of_mem ?_ hknd
      intro p1 p2 hp1 hp2' hne12 r1 hr1 r2 hr2 hid
      have h1 : r1 ∈ GetPendingQuoteRequests s := groupByPair_mem _ p1 hp1 r1 hr1
      have h2 : r2 ∈ GetPendingQuoteRequests s := groupByPair_mem _ p2 hp2' r2 hr2
      have h12 : r1 = r2 := List.inj_on_of_nodup_map hdiscN h1 h2 hid
      apply hne12
      rw [← hkeys p1 hp1 r1 hr1, h12, hkeys p2 hp2' r2 hr2]
    have hpres : ∀ p' ∈ groupByPair (GetPendingQuoteRequests s), ∀ r ∈ p'.2,
        ∃ q ∈ s.requests, q.id = r.id := by
      intro p' hp' r hr
      exact ⟨r, (getPendingQuoteRequests_sub s r (groupByPair_mem _ p' hp' r hr)).1, rfl⟩
    have hmain := foldGroups_spec rates now (groupByPair (GetPendingQuoteRequests s)) s
      hwf hkeys hknd hdisj hpres p hp r0 rest hp2
    rw [hcycle]
    exact hmain

/-- Witness for C4: two pending groups, the fetched table lacks MXN; the
(EUR, MXN) request ends `failed` while the (USD, EUR) request ends
`completed`. -/
theorem unknownCurrency_isolated_w :
    statusOfId "1" "failed"
      ((processPendingRequests (fun _ => .ok [("EUR", 17/20), ("USD", 1)]) 9
        { requests := [{ id := "1", From := "EUR", To := "MXN", Status := "pending",
                         CreatedAt := 1, UpdatedAt := 1 },
                       { id := "2", From := "USD", To := "EUR", Status := "pending",
                         CreatedAt := 2, UpdatedAt := 2 }], quotes := [] }).requests) ∧
    statusOfId "2" "completed"
      ((processPendingRequests (fun _ => .ok [("EUR", 17/20), ("USD", 1)]) 9
        { requests := [{ id := "1", From := "EUR", To := "MXN", Status := "pending",
                         CreatedAt := 1, UpdatedAt := 1 },
                       { id := "2", From := "USD", To := "EUR", Status := "pending",
                         CreatedAt := 2, UpdatedAt := 2 }], quotes := [] }).requests) := by
  have hdisc : GetPendingQuoteRequests { requests := [{ id := "1", From := "EUR", To := "MXN", Status := "pending", CreatedAt := 1, UpdatedAt := 1 }, { id := "2", From := "USD", To := "EUR", Status := "pending", CreatedAt := 2, UpdatedAt := 2 }], quotes := [] } = [{ id := "1", From := "EUR", To := "MXN", Status := "pending", CreatedAt := 1, UpdatedAt := 1 }, { id := "2", From := "USD", To := "EUR", Status := "pending", CreatedAt := 2, UpdatedAt := 2 }] := by
    simp [GetPendingQuoteRequests, List.mergeSort]
  have h := unknownCurrency_isolated (fun _ => .ok [("EUR", 17/20), ("USD", 1)]) 9
    { requests := [{ id := "1", From := "EUR", To := "MXN", Status := "pending",
                     CreatedAt := 1, UpdatedAt := 1 },
                   { id := "2", From := "USD", To := "EUR", Status := "pending",
                     CreatedAt := 2, UpdatedAt := 2 }], quotes := [] }
    [("EUR", 17/20), ("USD", 1)] (by decide) (by decide) rfl
  have h1 := h ("EUR/MXN", [{ id := "1", From := "EUR", To := "MXN", Status := "pending", CreatedAt := 1, UpdatedAt := 1 }]) (by rw [hdisc]; decide) { id := "1", From := "EUR", To := "MXN", Status := "pending", CreatedAt := 1, UpdatedAt := 1 } [] rfl
  have h2 := h ("USD/EUR", [{ id := "2", From := "USD", To := "EUR", Status := "pending", CreatedAt := 2, UpdatedAt := 2 }]) (by rw [hdisc]; decide) { id := "2", From := "USD", To := "EUR", Status := "pending", CreatedAt := 2, UpdatedAt := 2 } [] rfl
  constructor
  · exact (h1.1 "currency MXN not found in rates" rfl).1
      { id := "1", From := "EUR", To := "MXN", Status := "pending", CreatedAt := 1, UpdatedAt := 1 } (by decide)
  · exact (h2.2 (17/20) rfl).1
      { id := "2", From := "USD", To := "EUR", Status := "pending", CreatedAt := 2, UpdatedAt := 2 } (by decide)

/-! ## Error propagation policy: C9 -/

/-- C9 counterexample. The store holds a pending (EUR, MXN) request and the
best-effort `updated_at` refresh inside `CreateOrGetPendingQuoteRequest`
fails (`refreshFails = true`, the failing `Exec` of database.go that is only
logged): the call still returns success with the store unchanged — the store
failure neither transitions the affected request to `failed` (it stays
`pending`) nor surfaces an error, contradicting the claim that no failure is
swallowed. -/
theorem refreshFailure_swallowed :
    CreateOrGetPendingQuoteRequest "EUR" "MXN" 9 true
      { requests := [{ id := "1", From := "EUR", To := "MXN", Status := "pending",
                       CreatedAt := 1, UpdatedAt := 1 }], quotes := [] } =
      .ok ({ id := "1", From := "EUR", To := "MXN", Status := "pending",
             CreatedAt := 1, UpdatedAt := 1 },
           { requests := [{ id := "1", From := "EUR", To := "MXN", Status := "pending",
                            CreatedAt := 1, UpdatedAt := 1 }], quotes := [] }) := by
  rfl

/-- C9 amended. Failures of the Rate Source fetch and of the cross-rate
computation do terminate every affected request as `failed`, and a failing
INSERT on the client-facing create path is surfaced to the caller; but the
best-effort dedup-refresh failure inside `createOrGetPending` is logged and
swallowed: the call still succeeds and the request stays `pending`. -/
theorem errorHandling_amended
    (fetch : List String → Except String (List (String × Rat))) (now : Nat)
    (s : Store) (f t : String)
    (hwf : uniquePendingOK s.requests = true)
    (hnodup : (s.requests.map (fun q => q.id)).Nodup) :
    (∀ msg, GetPendingQuoteRequests s ≠ [] →
      fetch (extractUniqueCurrencies (GetPendingQuoteRequests s)) = .error msg →
      ∀ r ∈ GetPendingQuoteRequests s,
        statusOfId r.id "failed" (processPendingRequests fetch now s).requests) ∧
    (∀ rates e, fetch (extractUniqueCurrencies (GetPendingQuoteRequests s)) = .ok rates →
      ∀ p ∈ groupByPair (GetPendingQuoteRequests s), ∀ r0 rest, p.2 = r0 :: rest →
      CalculateExchangeRate r0.From r0.To rates = .error e →
      ∀ r ∈ p.2, statusOfId r.id "failed" (processPendingRequests fetch now s).requests) ∧
    (∀ e ce, GetPendingQuoteRequestByPair f t s = .error e →
      CreateQuoteRequest f t now s = .error ce →
      CreateOrGetPendingQuoteRequest f t now false s = .error ce) ∧
    (∀ ex, GetPendingQuoteRequestByPair f t s = .ok ex →
      CreateOrGetPendingQuoteRequest f t now true s = .ok (ex, s)) := by
  refine ⟨?_, ?_, ?_, ?_⟩
  · -- fetch failure: every discovered request is terminally failed
    intro msg hne hf r hr
    have hemp : (GetPendingQuoteRequests s).isEmpty = false := by
      cases hq : GetPendingQuoteRequests s with
      | nil => exact absurd hq hne
      | cons a l => rfl
    have hcycle : processPendingRequests fetch now s =
        markAllRequestsAsFailed (GetPendingQuoteRequests s) now s := by
      simp only [processPendingRequests]
      rw [if_neg (by simp [hemp]), hf]
    obtain ⟨hmark, _⟩ := (by
      rw [markAllRequestsAsFailed]
      exact foldTryUpdate_eq "failed" now (by decide) (GetPendingQuoteRequests s) s hwf :
      markAllRequestsAsFailed (GetPendingQuoteRequests s) now s =
        { s with requests := bulkSetStatus (GetPendingQuoteRequests s) "failed" now s.requests } ∧
      uniquePendingOK (bulkSetStatus (GetPendingQuoteRequests s) "failed" now s.requests) = true)
    rw [hcycle, hmark]
    exact statusOfId_bulk r.id "failed" now (GetPendingQuoteRequests s) s.requests
      ⟨r, hr, rfl⟩ ⟨r, (getPendingQuoteRequests_sub s r hr).1, rfl⟩
  · -- rate-computation failure: the whole group is terminally failed
    intro rates e hfetch p hp r0 rest hp2 hcalc r hr
    have hemp : (GetPendingQuoteRequests s).isEmpty = false := by
      cases hq : GetPendingQuoteRequests s with
      | nil =>
        exfalso
        rw [hq] at hp
        simp [groupByPair] at hp
      | cons a l => rfl
    have hcycle : processPendingRequests fetch now s =
        (groupByPair (GetPendingQuoteRequests s)).foldl
          (fun st g => processCurrencyPairWithRates g.2 rates now st) s := by
      simp only [processPendingRequests]
      rw [if_neg (by simp [hemp]), hfetch]
    obtain ⟨hkeys, hknd, _⟩ := groupByPair_invariants (GetPendingQuoteRequests s)
    have hdiscN := getPendingQuoteRequests_nodup_ids s hnodup
    have hdisj : List.Pairwise (fun p1 p2 => ∀ r1 ∈ p1.2, ∀ r2 ∈ p2.2, r1.id ≠ r2.id)
        (groupByPair (GetPendingQuoteRequests s)) := by
      apply List.Pairwise.imp_of_mem ?_ hknd
      intro p1 p2 hp1 hp2' hne12 r1 hr1 r2 hr2 hid
      have h1 : r1 ∈ GetPendingQuoteRequests s := groupByPair_mem _ p1 hp1 r1 hr1
      have h2 : r2 ∈ GetPendingQuoteRequests s := groupByPair_mem _ p2 hp2' r2 hr2
      have h12 : r1 = r2 := List.inj_on_of_nodup_map hdiscN h1 h2 hid
      apply hne12
      rw [← hkeys p1 hp1 r1 hr1, h12, hkeys p2 hp2' r2 hr2]
    have hpres : ∀ p' ∈ groupByPair (GetPendingQuoteRequests s), ∀ r' ∈ p'.2,
        ∃ q ∈ s.requests, q.id = r'.id := by
      intro p' hp' r' hr'
      exact ⟨r', (getPendingQuoteRequests_sub s r' (groupByPair_mem _ p' hp' r' hr')).1, rfl⟩
    have hmain := foldGroups_spec rates now (groupByPair (GetPendingQuoteRequests s)) s
      hwf hkeys hknd hdisj hpres p hp r0 rest hp2
    rw [hcycle]
    exact (hmain.1 e hcalc).1 r hr
  · -- failing insert on the create path is surfaced
    intro e ce herr hcr
    rw [CreateOrGetPendingQuoteRequest, herr]
    exact hcr
  · -- the dedup-refresh failure is swallowed
    intro ex hex
    rw [CreateOrGetPendingQuoteRequest, hex]
    rfl

/-- Witness for C9's amended theorem: the pending lookup misses, the INSERT
clashes with an existing primary key, and the error is surfaced as-is. -/
theorem errorHandling_amended_w :
    CreateOrGetPendingQuoteRequest "EUR" "MXN" 9 false
      { requests := [{ id := "9", From := "EUR", To := "MXN", Status := "completed",
                       CreatedAt := 1, UpdatedAt := 1 }], quotes := [] } =
      .error "failed to create quote request" := by
  have h := errorHandling_amended (fun _ => .ok []) 9
    { requests := [{ id := "9", From := "EUR", To := "MXN", Status := "completed",
                     CreatedAt := 1, UpdatedAt := 1 }], quotes := [] }
    "EUR" "MXN" (by decide) (by decide)
  exact h.2.2.1 "pending quote request not found" "failed to create quote request" rfl rfl
